import Mathlib

/-!
Verification development for the flash-sale service (yuzvak/flashsale-service).

The definitions below are a shallow embedding of the Go source:
* `internal/domain/sale/{sale,item,checkout,purchase_service}.go` — domain records,
* `internal/infrastructure/monitoring/middleware.go` — the Redis cache commands and
  the server-side Lua scripts,
* `internal/infrastructure/bloom` (Redis bloom filter) and `internal/pkg/bloom`,
* `internal/application/commands/checkout_command.go` — the checkout handler,
* `internal/application/use_cases/purchase_use_case.go` — the purchase engine,
* `internal/infrastructure/persistence/postgres/sale_repository.go` — the conditional
  `MarkItemAsSold` update and the purchase-result idempotency rows.

Conventions: wall-clock instants are integers (UTC ticks); machine strings are `String`;
the durable tables and the coordination-store keys are association lists so that every
definition is executable and every concrete run can be evaluated by `decide`.
Monitoring, logging and audit writes (`LogCheckoutAttempt`) have no effect on the
modelled state and are omitted.  Concurrency: every purchase runs under the per-code
exclusion key and a serializable transaction, so an interleaved execution is equivalent
to a serial sequence of the atomic steps modelled here; commit failures are injected
through an explicit `commitFails` schedule.
-/

namespace FlashSale

/-- Association-list read (models a keyed SQL row / Redis GET; `none` = absent). -/
def kget {κ α : Type} [DecidableEq κ] : List (κ × α) → κ → Option α
  | [], _ => none
  | (q, v) :: rest, p => if q = p then some v else kget rest p

/-- Association-list write (models a keyed UPDATE/INSERT / Redis SET). -/
def kset {κ α : Type} [DecidableEq κ] : List (κ × α) → κ → α → List (κ × α)
  | [], p, v => [(p, v)]
  | (q, w) :: rest, p, v => if q = p then (p, v) :: rest else (q, w) :: kset rest p v

/-- Association-list delete (models SQL DELETE / Redis DEL). -/
def kdel {κ α : Type} [DecidableEq κ] : List (κ × α) → κ → List (κ × α)
  | [], _ => []
  | (q, w) :: rest, p => if q = p then kdel rest p else (q, w) :: kdel rest p

/-! ### Coordination-store scripts (middleware.go)

`purchaseLuaScript` (`KEYS=[sale_key, user_key]`, `ARGS=[item_count, max_sale_items,
max_user_items]`): the script reads both counters (`GET … or 0`), returns `0` without
writing when either limit would be exceeded, and otherwise `INCRBY`s both counters and
returns `1`.  Redis evaluates a script atomically, so one evaluation is one function
application.  The two counter cells are passed and returned as `Option Int`
(`none` = key absent, read as `0`). -/

def purchaseScript (saleCount userCount : Option Int) (n maxSale maxUser : Int) :
    Int × Option Int × Option Int :=
  let s := saleCount.getD 0
  let u := userCount.getD 0
  if s + n > maxSale then (0, saleCount, userCount)
  else if n > maxUser - u then (0, saleCount, userCount)
  else (1, some (s + n), some (u + n))

/-! ### Probabilistic sold-items filter (infrastructure/bloom, RedisBloomFilter)

The Redis-backed filter keeps a bitset under one key; `Add` sets the `k` bit positions
`(h1(x) + i·h2(x)) mod m` (double hashing, `getHashes`) in one pipelined batch and
`Contains` reads the same positions.  The two concrete 64-bit hash functions (FNV-1a
and the first 8 bytes of SHA-256) are opaque here: the filter is parametric in `h1`
and `h2`, which is sound because `Add` and `Contains` derive their positions from the
same functions.  The bitset is the list of positions that have been set. -/

structure RedisBloomFilter where
  m : Nat
  k : Nat
  h1 : String → Nat
  h2 : String → Nat

/-- Bit positions probed for an element: `h_i(x) = h1(x) + i·h2(x) (i < k)`, reduced
`mod m` (getHashes plus the `% bf.m` applied at each SetBit/GetBit call). -/
def RedisBloomFilter.positions (bf : RedisBloomFilter) (x : String) : List Nat :=
  (List.range bf.k).map fun i => (bf.h1 x + i * bf.h2 x) % bf.m

/-- RedisBloomFilter.Add: set every probed bit (pipelined SETBIT batch). -/
def RedisBloomFilter.Add (bf : RedisBloomFilter) (bits : List Nat) (x : String) : List Nat :=
  bits ++ bf.positions x

/-- RedisBloomFilter.Contains: true iff every probed bit is set (pipelined GETBIT batch). -/
def RedisBloomFilter.Contains (bf : RedisBloomFilter) (bits : List Nat) (x : String) : Bool :=
  (bf.positions x).all fun p => decide (p ∈ bits)

/-- Replay a sequence of Add operations against an initial bitset. -/
def RedisBloomFilter.addAll (bf : RedisBloomFilter) (bits : List Nat) (xs : List String) :
    List Nat :=
  xs.foldl bf.Add bits

/-! ### Domain records (internal/domain/sale)

Fields not touched by any claim (image URLs, creation timestamps, the `sold_at`
instant) are omitted; `sold_to_user_id` is `Option String` mirroring the nullable
column read through `sql.NullString`. -/

structure Item where
  id : String
  saleID : String
  name : String
  sold : Bool
  soldToUserID : Option String
deriving DecidableEq, Repr

structure Sale where
  id : String
  startedAt : Int
  endedAt : Int
  totalItems : Int
  itemsSold : Int
deriving DecidableEq, Repr

/-- Sale.IsActive (sale.go): `now.After(s.StartedAt) && now.Before(s.EndedAt)` —
both comparisons strict. -/
def Sale.IsActive (s : Sale) (now : Int) : Bool :=
  decide (s.startedAt < now) && decide (now < s.endedAt)

structure Checkout where
  code : String
  saleID : String
  userID : String
  itemIDs : List String
deriving DecidableEq, Repr

/-- Checkout.AddItem (checkout.go): reject an item id already present, else append. -/
def Checkout.AddItem (c : Checkout) (itemID : String) : Option Checkout :=
  if c.itemIDs.contains itemID then none
  else some { c with itemIDs := c.itemIDs ++ [itemID] }

def Checkout.ItemCount (c : Checkout) : Nat :=
  c.itemIDs.length

structure PurchaseItemResult where
  id : String
  name : String
  sold : Bool
deriving DecidableEq, Repr

structure PurchaseResult where
  success : Bool
  items : List PurchaseItemResult
  totalPurchased : Nat
  failedCount : Nat
deriving DecidableEq, Repr

/-- Error taxonomy (internal/domain/errors/errors.go) plus the two ad-hoc
`fmt.Errorf` values of the purchase use case (`noValidItems`, `purchaseInProgress`)
and the generic constructor-validation error of `sale.NewCheckout` (`invalidInput`).
Infrastructure commit failures surface as `transactionFailed`. -/
inductive Err where
  | saleNotFound
  | saleNotActive
  | saleLimitExceeded
  | noItemsToPurchase
  | itemNotFound
  | itemAlreadySold
  | itemNotInSale
  | allItemsSold
  | checkoutNotFound
  | itemAlreadyInCheckout
  | userAlreadyCheckedOutItem
  | userLimitExceeded
  | checkoutAlreadyProcessed
  | transactionFailed
  | noValidItems
  | purchaseInProgress
  | invalidInput
deriving DecidableEq, Repr

/-! ### Durable store (postgres repositories) -/

structure DB where
  sales : List Sale
  items : List Item
  checkouts : List Checkout
  purchaseResults : List (String × PurchaseResult)
deriving DecidableEq, Repr

/-- GetItemByID: the `items.id` primary-key lookup. -/
def getItemByID (items : List Item) (id : String) : Option Item :=
  items.find? fun it => it.id == id

/-- MarkItemAsSold (sale_repository.go): `UPDATE items SET sold = TRUE,
sold_to_user_id = $2 WHERE id = $1 AND sold = FALSE`; the Bool is
`rowsAffected > 0`. -/
def markItemAsSold (items : List Item) (id userID : String) : Bool × List Item :=
  (items.any fun it => it.id == id && !it.sold,
   items.map fun it =>
     if it.id == id && !it.sold then { it with sold := true, soldToUserID := some userID }
     else it)

/-- GetActiveSale: `WHERE started_at <= NOW() AND ended_at > NOW() ORDER BY started_at
DESC LIMIT 1`; the row order of `sales` realises the ORDER BY. -/
def getActiveSale (db : DB) (now : Int) : Option Sale :=
  db.sales.find? fun s => decide (s.startedAt ≤ now) && decide (now < s.endedAt)

def getSaleByID (db : DB) (id : String) : Option Sale :=
  db.sales.find? fun s => s.id == id

/-- UpdateSale: write back the (primary-keyed) sale row. -/
def updateSale (sales : List Sale) (s : Sale) : List Sale :=
  sales.map fun t => if t.id == s.id then s else t

def getCheckoutByCode (db : DB) (code : String) : Option Checkout :=
  db.checkouts.find? fun ck => ck.code == code

def updateCheckout (cks : List Checkout) (ck : Checkout) : List Checkout :=
  cks.map fun t => if t.code == ck.code then ck else t

/-! ### Coordination store (middleware.go Cache)

Redis keys `sale:{S}:items_sold`, `user:{U}:sale:{S}:count`,
`user:{U}:sale:{S}:checkout_count`, `user:{U}:sale:{S}:checkout`, `checkout:{code}`,
`user:{U}:sale:{S}:checked_items` and `lock:purchase:{code}` are modelled as
association lists keyed by the identifiers interpolated into the key string.
A `GET` of an absent counter reads 0 (`redis.Nil` is mapped to 0 in the source).
TTLs are not timed out implicitly; the expiry of the 24h user counter is an explicit
operation in the engine alphabet below. -/

structure Cache where
  saleSold : List (String × Int)
  userSold : List ((String × String) × Int)
  checkoutCount : List ((String × String) × Int)
  userCheckoutCode : List ((String × String) × String)
  checkoutCodes : List (String × Unit)
  checkedItems : List ((String × String × String) × Unit)
  bloom : List (String × Unit)
  locks : List (String × Unit)
deriving DecidableEq, Repr

def Cache.getSaleItemCount (c : Cache) (saleID : String) : Int :=
  (kget c.saleSold saleID).getD 0

def Cache.getUserItemCount (c : Cache) (saleID userID : String) : Int :=
  (kget c.userSold (saleID, userID)).getD 0

def Cache.getUserCheckoutCount (c : Cache) (saleID userID : String) : Int :=
  (kget c.checkoutCount (saleID, userID)).getD 0

/-- GetAvailableCheckoutSlots: `maxItems − purchasedCount − checkoutCount`. -/
def Cache.getAvailableCheckoutSlots (c : Cache) (saleID userID : String) (maxItems : Int) :
    Int :=
  maxItems - c.getUserItemCount saleID userID - c.getUserCheckoutCount saleID userID

def Cache.hasUserCheckedOutItem (c : Cache) (saleID userID itemID : String) : Bool :=
  (kget c.checkedItems (saleID, userID, itemID)).isSome

def Cache.itemExistsInBloomFilter (c : Cache) (itemID : String) : Bool :=
  (kget c.bloom itemID).isSome

def Cache.addItemToBloomFilter (c : Cache) (itemID : String) : Cache :=
  { c with bloom := kset c.bloom itemID () }

/-- IncrementCounters (middleware.go): one script INCRBYs `sale:{S}:items_sold` and
`user:{U}:sale:{S}:count` by `n` (and refreshes the 24h TTL of the user counter). -/
def Cache.incrementCounters (c : Cache) (saleID userID : String) (n : Int) : Cache :=
  { c with
      saleSold := kset c.saleSold saleID (c.getSaleItemCount saleID + n)
      userSold := kset c.userSold (saleID, userID) (c.getUserItemCount saleID userID + n) }

def Cache.incrementUserCheckoutCount (c : Cache) (saleID userID : String) : Cache :=
  { c with
      checkoutCount :=
        kset c.checkoutCount (saleID, userID) (c.getUserCheckoutCount saleID userID + 1) }

def Cache.addUserCheckedOutItem (c : Cache) (saleID userID itemID : String) : Cache :=
  { c with checkedItems := kset c.checkedItems (saleID, userID, itemID) () }

/-- Combined system state: durable store plus coordination store. -/
structure SysState where
  db : DB
  cache : Cache
deriving DecidableEq, Repr

/-! ### Domain purchase service (purchase_service.go)

`NewPurchaseUseCase` wires `maxItemsPerSale = 10000` and `maxItemsPerUser = 10`; the
HTTP checkout handler passes `maxItemsLimit = 10` to the checkout command. -/

def maxItemsPerSale : Int := 10000

def maxItemsPerUser : Int := 10

/-- ValidatePurchase: nil-sale and empty-items guards, active-sale check, sale cap,
user cap against the pre-counted amount `userCurrent` (the use case passes 0), and
the per-item `BelongsToSale` check.  Returns the first failing error. -/
def ValidatePurchase (s : Sale) (userCurrent : Int) (now : Int) (items : List Item) :
    Option Err :=
  if !(s.IsActive now) then some .saleNotActive
  else if items.isEmpty then some .noItemsToPurchase
  else if s.itemsSold + (items.length : Int) > maxItemsPerSale then some .saleLimitExceeded
  else if userCurrent + (items.length : Int) > maxItemsPerUser then some .userLimitExceeded
  else if items.any (fun it => !(it.saleID == s.id)) then some .itemNotInSale
  else none

/-- CalculatePurchaseResult: per-item `sold` flag is membership of the item id in
`successfulPurchases`. -/
def CalculatePurchaseResult (attempted : List Item) (successes : List String) :
    PurchaseResult :=
  { success := decide (0 < successes.length)
    items := attempted.map fun it => ⟨it.id, it.name, successes.contains it.id⟩
    totalPurchased := successes.length
    failedCount := attempted.length - successes.length }

/-! ### Purchase engine (purchase_use_case.go)

`attemptPurchase` runs between `BeginTx` and `CommitTx`/`RollbackTx`.  Durable writes
(`MarkItemAsSold`, `UpdateSale`, `SavePurchaseResult`) are staged inside the
transaction and take effect only if the commit succeeds; cache writes (the bloom-filter
adds of the per-item loop and `IncrementCounters`) go straight to the coordination
store and survive a rollback.  A commit failure is injected through `commitFails`. -/

structure LoopState where
  bloom : List (String × Unit)
  items : List Item
  successes : List String
deriving DecidableEq, Repr

/-- One iteration of the per-item loop of `attemptPurchase`: skip when the filter
(possibly) knows the item as sold, otherwise attempt the conditional update and add
the item to the filter whether or not the row was won. -/
def purchaseStep (userID : String) (acc : LoopState) (item : Item) : LoopState :=
  if (kget acc.bloom item.id).isSome then acc
  else
    let r := markItemAsSold acc.items item.id userID
    if r.1 then ⟨kset acc.bloom item.id (), r.2, acc.successes ++ [item.id]⟩
    else ⟨kset acc.bloom item.id (), r.2, acc.successes⟩

def processItems (bloom : List (String × Unit)) (itemsDB : List Item) (userID : String)
    (items : List Item) : LoopState :=
  items.foldl (purchaseStep userID) ⟨bloom, itemsDB, []⟩

/-- One attempt of the purchase engine (attemptPurchase).  `LogCheckoutAttempt` is an
audit write with no effect on the modelled state and is omitted. -/
def attemptPurchase (st : SysState) (ck : Checkout) (now : Int) (commitFails : Bool) :
    SysState × Except Err PurchaseResult :=
  let userCount := st.cache.getUserItemCount ck.saleID ck.userID
  let saleCount := st.cache.getSaleItemCount ck.saleID
  if saleCount + (ck.itemIDs.length : Int) > maxItemsPerSale then
    (st, .error .saleLimitExceeded)
  else if userCount + (ck.itemIDs.length : Int) > maxItemsPerUser then
    (st, .error .userLimitExceeded)
  else
    match kget st.db.purchaseResults ck.code with
    | some _ => (st, .error .checkoutAlreadyProcessed)
    | none =>
      match getSaleByID st.db ck.saleID with
      | none => (st, .error .saleNotFound)
      | some saleEntity =>
        let items := ck.itemIDs.filterMap (getItemByID st.db.items)
        if items.isEmpty then (st, .error .noValidItems)
        else
          match ValidatePurchase saleEntity 0 now items with
          | some e => (st, .error e)
          | none =>
            let ls := processItems st.cache.bloom st.db.items ck.userID items
            let result := CalculatePurchaseResult items ls.successes
            let cache1 := { st.cache with bloom := ls.bloom }
            let cache2 :=
              if 0 < ls.successes.length then
                cache1.incrementCounters ck.saleID ck.userID (ls.successes.length : Int)
              else cache1
            let sales2 :=
              if 0 < ls.successes.length then
                updateSale st.db.sales
                  { saleEntity with itemsSold := saleEntity.itemsSold + (ls.successes.length : Int) }
              else st.db.sales
            let db2 : DB :=
              { st.db with
                  items := ls.items
                  sales := sales2
                  purchaseResults := kset st.db.purchaseResults ck.code result }
            if commitFails then ({ st with cache := cache2 }, .error .transactionFailed)
            else if ls.successes.isEmpty then ({ db := db2, cache := cache2 }, .error .allItemsSold)
            else ({ db := db2, cache := cache2 }, .ok result)

/-- isBusinessLogicError (purchase_use_case.go): these errors break the retry loop. -/
def isBusinessLogicError : Err → Bool
  | .checkoutNotFound => true
  | .saleNotFound => true
  | .userLimitExceeded => true
  | .checkoutAlreadyProcessed => true
  | _ => false

/-- Retry loop of ExecutePurchase (`retryAttempts = 2`); `fails` is the injected
per-attempt commit-failure schedule, one entry per remaining attempt. -/
def purchaseLoop (st : SysState) (ck : Checkout) (now : Int) :
    List Bool → SysState × Except Err PurchaseResult
  | [] => (st, .error .transactionFailed)
  | f :: rest =>
    match attemptPurchase st ck now f with
    | (st2, .ok r) => (st2, .ok r)
    | (st2, .error e) =>
      if isBusinessLogicError e || rest.isEmpty then (st2, .error e)
      else purchaseLoop st2 ck now rest

/-- cleanupCheckout: delete the user checkout-code and checkout-count keys, the
`checkout:{code}` marker, and the checkout rows in the durable store. -/
def cleanupCheckout (st : SysState) (code saleID userID : String) : SysState :=
  { st with
      db := { st.db with checkouts := st.db.checkouts.filter fun ck => !(ck.code == code) }
      cache := { st.cache with
        userCheckoutCode := kdel st.cache.userCheckoutCode (saleID, userID)
        checkoutCount := kdel st.cache.checkoutCount (saleID, userID)
        checkoutCodes := kdel st.cache.checkoutCodes code } }

/-- ExecutePurchase: checkout-marker probe, checkout load, `checkout:{code}` restore,
per-code exclusion (`lock:purchase:{code}`, released on every exit), retry loop, and —
only on success — cleanup. -/
def ExecutePurchase (st : SysState) (code : String) (now : Int) (commitFails : List Bool) :
    SysState × Except Err PurchaseResult :=
  let codeInCache := (kget st.cache.checkoutCodes code).isSome
  match getCheckoutByCode st.db code with
  | none => (st, .error .checkoutNotFound)
  | some ck =>
    let st1 :=
      if codeInCache then st
      else { st with cache :=
        { st.cache with checkoutCodes := kset st.cache.checkoutCodes code () } }
    if (kget st1.cache.locks code).isSome then (st1, .error .purchaseInProgress)
    else
      let st2 := { st1 with cache := { st1.cache with locks := kset st1.cache.locks code () } }
      let r := purchaseLoop st2 ck now commitFails
      let st3 := { r.1 with cache := { r.1.cache with locks := kdel r.1.cache.locks code } }
      match r.2 with
      | .error e => (st3, .error e)
      | .ok res => (cleanupCheckout st3 code ck.saleID ck.userID, .ok res)

/-! ### Checkout handler (checkout_command.go)

`Handle` takes the wall-clock instant `now`, the CSPRNG output `nonce` for
`GenerateCheckoutCode` (`"CHK-" + saleID + "-" + hex`), and `AdmissionFaults`, which
injects infrastructure errors into the three coordination-store admission reads; the
source logs such an error and falls through to the next step. -/

structure AdmissionFaults where
  bloomErr : Bool
  slotsErr : Bool
  checkedErr : Bool
deriving DecidableEq, Repr

def noFaults : AdmissionFaults :=
  ⟨false, false, false⟩

def generateCheckoutCode (saleID nonce : String) : String :=
  "CHK-" ++ saleID ++ "-" ++ nonce

structure CheckoutResponse where
  code : String
  itemsCount : Nat
  saleEndsAt : Int
deriving DecidableEq, Repr

/-- Cache writes performed after a successful append: IncrementUserCheckoutCount and
AddUserCheckedOutItem (both best-effort in the source; modelled as succeeding). -/
def finalizeCheckout (st : SysState) (saleID userID itemID : String) : SysState :=
  let c1 := st.cache.incrementUserCheckoutCount saleID userID
  { st with cache := c1.addUserCheckedOutItem saleID userID itemID }

/-- Authoritative tail of Handle: item lookup, sale-membership and sold checks, code
reuse or generation, checkout creation or append, and the follow-up cache writes. -/
def checkoutCore (st : SysState) (activeSale : Sale) (userID itemID : String)
    (nonce : String) : SysState × Except Err CheckoutResponse :=
  match getItemByID st.db.items itemID with
  | none => (st, .error .itemNotFound)
  | some item =>
    if !(item.saleID == activeSale.id) then (st, .error .itemNotInSale)
    else if item.sold then
      ({ st with cache := st.cache.addItemToBloomFilter itemID }, .error .itemAlreadySold)
    else
      let cached := (kget st.cache.userCheckoutCode (activeSale.id, userID)).getD ""
      let code := if cached == "" then generateCheckoutCode activeSale.id nonce else cached
      let st1 :=
        if cached == "" then
          { st with cache :=
            { st.cache with
                userCheckoutCode := kset st.cache.userCheckoutCode (activeSale.id, userID) code
                checkoutCodes := kset st.cache.checkoutCodes code () } }
        else st
      match getCheckoutByCode st1.db code with
      | none =>
        if code == "" || activeSale.id == "" || userID == "" then (st1, .error .invalidInput)
        else
          let ck : Checkout := ⟨code, activeSale.id, userID, [itemID]⟩
          let st2 := { st1 with db := { st1.db with checkouts := st1.db.checkouts ++ [ck] } }
          (finalizeCheckout st2 activeSale.id userID itemID,
           .ok ⟨code, 1, activeSale.endedAt⟩)
      | some ck =>
        match ck.AddItem itemID with
        | none => (st1, .error .userAlreadyCheckedOutItem)
        | some ck2 =>
          let st2 :=
            { st1 with db := { st1.db with checkouts := updateCheckout st1.db.checkouts ck2 } }
          (finalizeCheckout st2 activeSale.id userID itemID,
           .ok ⟨code, ck2.ItemCount, activeSale.endedAt⟩)

/-- Handle (checkout_command.go): active-sale fetch and activity check, the three
fail-open admission checks against the coordination store (sold-items filter,
available checkout slots, already-checked-out membership), then `checkoutCore`. -/
def Handle (st : SysState) (userID itemID : String) (now : Int) (nonce : String)
    (f : AdmissionFaults) : SysState × Except Err CheckoutResponse :=
  match getActiveSale st.db now with
  | none => (st, .error .saleNotFound)
  | some activeSale =>
    if !(activeSale.IsActive now) then (st, .error .saleNotActive)
    else if !f.bloomErr && st.cache.itemExistsInBloomFilter itemID then
      (st, .error .itemAlreadySold)
    else if !f.slotsErr &&
        decide (st.cache.getAvailableCheckoutSlots activeSale.id userID 10 ≤ 0) then
      (st, .error .userLimitExceeded)
    else if !f.checkedErr && st.cache.hasUserCheckedOutItem activeSale.id userID itemID then
      (st, .error .userAlreadyCheckedOutItem)
    else checkoutCore st activeSale userID itemID nonce

/-! ### Engine runs

A run is a sequence of atomic engine operations.  Checkouts and purchases are atomic
here because every purchase runs under the per-code exclusion key with a serializable
transaction and the coordination store is single-threaded, so any interleaved
execution is equivalent to some serial order of these steps.  `expireUserCount` is the
TTL expiry of the 24-hour `user:{U}:sale:{S}:count` key (set by IncrementCounters). -/

inductive Op where
  | checkout (userID itemID : String) (now : Int) (nonce : String) (f : AdmissionFaults)
  | purchase (code : String) (now : Int) (fail1 fail2 : Bool)
  | expireUserCount (saleID userID : String)
deriving DecidableEq, Repr

def stepOp (st : SysState) : Op → SysState
  | .checkout u i now nonce f => (Handle st u i now nonce f).1
  | .purchase code now f1 f2 => (ExecutePurchase st code now [f1, f2]).1
  | .expireUserCount s u =>
    { st with cache := { st.cache with userSold := kdel st.cache.userSold (s, u) } }

def runOps (st : SysState) : List Op → SysState
  | [] => st
  | op :: ops => runOps (stepOp st op) ops

/-- Items of sale `saleID` sold to `userID` (the authoritative durable count). -/
def soldCountTo (items : List Item) (saleID userID : String) : Nat :=
  (items.filter fun it =>
    it.saleID == saleID && it.sold && it.soldToUserID == some userID).length

/-! ### Shared concrete fixtures -/

def emptyCache : Cache :=
  ⟨[], [], [], [], [], [], [], []⟩

/-- Rows of item `x` that are already sold: stable under any conditional update. -/
def allSold (items : List Item) (x : String) : Prop :=
  ∀ it ∈ items, it.id = x → it.sold = true

/-- Item-table states reachable from `a` by a sequence of conditional updates. -/
inductive Reach : List Item → List Item → Prop where
  | refl (items : List Item) : Reach items items
  | mark (a b : List Item) (y u : String) : Reach a b → Reach a (markItemAsSold b y u).2

/-- A purchase result claims item `x` was sold by this purchase iff it is an `ok`
result containing an entry of `x` with `sold = true`. -/
def reportsSold (res : Except Err PurchaseResult) (x : String) : Bool :=
  match res with
  | Except.ok r => r.items.any fun ir => ir.id == x && ir.sold
  | Except.error _ => false

/-- Number of purchase operations of a run whose returned result reports item `x`
as sold by that purchase. -/
def soldReports (st : SysState) (ops : List Op) (x : String) : Nat :=
  match ops with
  | [] => 0
  | op :: rest =>
    (match op with
     | Op.purchase code now f1 f2 =>
       if reportsSold (ExecutePurchase st code now [f1, f2]).2 x then 1 else 0
     | _ => 0) + soldReports (stepOp st op) rest x

/-! ### Association-list laws -/

theorem kget_kset_self {κ α : Type} [DecidableEq κ] (m : List (κ × α)) (p : κ) (v : α) :
    kget (kset m p v) p = some v := by
  induction m with
  | nil => simp [kget, kset]
  | cons hd tl ih =>
    obtain ⟨q, w⟩ := hd
    by_cases h : q = p <;> simp [kget, kset, h, ih]

theorem kget_kset_ne {κ α : Type} [DecidableEq κ] (m : List (κ × α)) (p r : κ) (v : α)
    (h : p ≠ r) : kget (kset m p v) r = kget m r := by
  induction m with
  | nil => simp [kget, kset, h]
  | cons hd tl ih =>
    obtain ⟨q, w⟩ := hd
    by_cases hq : q = p
    · subst hq
      simp [kget, kset, h]
    · simp [kget, kset, hq, ih]

theorem kdel_of_kget_none {κ α : Type} [DecidableEq κ] (m : List (κ × α)) (p : κ)
    (h : kget m p = none) : kdel m p = m := by
  induction m with
  | nil => simp [kdel]
  | cons hd tl ih =>
    obtain ⟨q, w⟩ := hd
    by_cases hq : q = p
    · simp [kget, hq] at h
    · simp [kget, hq] at h
      simp [kdel, hq, ih h]

/-! ### C6 — purchase-script atomicity -/

/-- C6: one evaluation of the purchase script returns 1 and increments both counters by
exactly `n` when both limits hold (absent counters read as 0); otherwise it returns 0
and leaves both counters unchanged.  In particular it never increments exactly one of
the two. -/
theorem purchaseScript_atomic (saleCount userCount : Option Int) (n maxSale maxUser : Int) :
    (saleCount.getD 0 + n ≤ maxSale ∧ userCount.getD 0 + n ≤ maxUser ∧
      purchaseScript saleCount userCount n maxSale maxUser =
        (1, some (saleCount.getD 0 + n), some (userCount.getD 0 + n))) ∨
    ((saleCount.getD 0 + n > maxSale ∨ userCount.getD 0 + n > maxUser) ∧
      purchaseScript saleCount userCount n maxSale maxUser = (0, saleCount, userCount)) := by
  unfold purchaseScript
  by_cases hs : saleCount.getD 0 + n > maxSale
  · exact Or.inr ⟨Or.inl hs, by simp [hs]⟩
  · by_cases hu : n > maxUser - userCount.getD 0
    · exact Or.inr ⟨Or.inr (by omega), by simp [hs, hu]⟩
    · exact Or.inl ⟨by omega, by omega, by simp [hs, hu]⟩

/-! ### C9 — filter soundness -/

theorem contains_mono (bf : RedisBloomFilter) {bits bits2 : List Nat} (x : String)
    (hsub : ∀ p, p ∈ bits → p ∈ bits2) (h : bf.Contains bits x = true) :
    bf.Contains bits2 x = true := by
  simp only [RedisBloomFilter.Contains, List.all_eq_true, decide_eq_true_eq] at h ⊢
  exact fun p hp => hsub p (h p hp)

theorem add_subset (bf : RedisBloomFilter) (bits : List Nat) (x : String) :
    ∀ p, p ∈ bits → p ∈ bf.Add bits x := by
  intro p hp
  simp [RedisBloomFilter.Add, hp]

theorem contains_add_self (bf : RedisBloomFilter) (bits : List Nat) (x : String) :
    bf.Contains (bf.Add bits x) x = true := by
  simp only [RedisBloomFilter.Contains, RedisBloomFilter.Add, List.all_eq_true,
    decide_eq_true_eq, List.mem_append]
  exact fun p hp => Or.inr hp

theorem addAll_subset (bf : RedisBloomFilter) (bits : List Nat) (xs : List String) :
    ∀ p, p ∈ bits → p ∈ bf.addAll bits xs := by
  induction xs generalizing bits with
  | nil => intro p hp; simpa [RedisBloomFilter.addAll] using hp
  | cons y ys ih =>
    intro p hp
    exact ih (bf.Add bits y) p (add_subset bf bits y p hp)

theorem contains_addAll_of_mem (bf : RedisBloomFilter) (bits : List Nat)
    {xs : List String} {x : String} (hmem : x ∈ xs) :
    bf.Contains (bf.addAll bits xs) x = true := by
  induction xs generalizing bits with
  | nil => simp at hmem
  | cons y ys ih =>
    rcases List.mem_cons.mp hmem with hxy | hxys
    · subst hxy
      exact contains_mono bf x (addAll_subset bf (bf.Add bits x) ys)
        (contains_add_self bf bits x)
    · exact ih (bf.Add bits y) hxys

/-- C9: the filter has no false negatives.  Bits are only ever set, all `k` positions
derived from `h1(x) + i·h2(x) mod m` are set by `Add` and read by `Contains`, so after
any sequence of adds, `Contains x = false` implies `x` was never added; equivalently,
once `Add x` has run, every later `Contains x` returns true. -/
theorem bloomFilter_sound (bf : RedisBloomFilter) (bits : List Nat) (xs : List String)
    (x : String) (h : bf.Contains (bf.addAll bits xs) x = false) : x ∉ xs := by
  intro hmem
  simp [contains_addAll_of_mem bf bits hmem] at h

/-- Witness for `bloomFilter_sound` at a concrete filter and add-sequence. -/
theorem bloomFilter_sound_witness :
    (let bf : RedisBloomFilter := ⟨5, 2, String.length, fun _ => 1⟩
     bf.Contains (bf.addAll [] ["aa", "bbb"]) "c" = false) ∧
    "c" ∉ ["aa", "bbb"] := by
  refine ⟨by decide, ?_⟩
  exact bloomFilter_sound ⟨5, 2, String.length, fun _ => 1⟩ [] ["aa", "bbb"] "c" (by decide)

/-! ### C7 — sale-activity window -/

/-- C7 counterexample: the claim says a sale is active exactly when
`started_at ≤ now < ended_at` and that a checkout at `now = started_at` is not
rejected for inactivity.  At the concrete sale `(started_at, ended_at) = (0, 100)`
and `now = 0`, `GetActiveSale` (SQL: `started_at <= NOW() AND ended_at > NOW()`)
does return the sale, yet `Sale.IsActive` — `now.After(StartedAt)`, strict — is
false and the checkout handler rejects with `SaleNotActive`. -/
theorem saleActive_counterexample :
    (let s : Sale := ⟨"S1", 0, 100, 5, 0⟩
     let st : SysState :=
       ⟨⟨[s], [⟨"I1", "S1", "item", false, none⟩], [], []⟩, emptyCache⟩
     s.startedAt ≤ 0 ∧ 0 < s.endedAt ∧ getActiveSale st.db 0 = some s ∧
       s.IsActive 0 = false ∧
       (Handle st "U1" "I1" 0 "aa" noFaults).2 = Except.error Err.saleNotActive) :=
  ⟨by decide, by decide, rfl, rfl, rfl⟩

/-- C7 amended: the activity window of the code is open at the left end: a sale is
active exactly when `started_at < now < ended_at`, and a checkout attempted at
exactly `now = started_at` (when the durable store does return the sale) is rejected
with `SaleNotActive`. -/
theorem saleActive_amended (s : Sale) (now : Int) :
    (s.IsActive now = true ↔ (s.startedAt < now ∧ now < s.endedAt)) ∧
    (∀ (st : SysState) (userID itemID nonce : String) (f : AdmissionFaults),
      getActiveSale st.db now = some s → s.startedAt = now →
      (Handle st userID itemID now nonce f).2 = Except.error Err.saleNotActive) := by
  constructor
  · simp [Sale.IsActive]
  · intro st userID itemID nonce f hfind hstart
    have hact : s.IsActive now = false := by
      simp [Sale.IsActive, hstart]
    simp [Handle, hfind, hact]

/-- Witness for `saleActive_amended` at a concrete sale, state and instant. -/
theorem saleActive_witness :
    ((⟨"S1", 0, 100, 5, 0⟩ : Sale).IsActive 50 = true ↔ ((0 : Int) < 50 ∧ (50 : Int) < 100)) ∧
    (∀ (st : SysState) (userID itemID nonce : String) (f : AdmissionFaults),
      getActiveSale st.db 50 = some ⟨"S1", 0, 100, 5, 0⟩ → (⟨"S1", 0, 100, 5, 0⟩ : Sale).startedAt = 50 →
      (Handle st userID itemID 50 nonce f).2 = Except.error Err.saleNotActive) :=
  saleActive_amended ⟨"S1", 0, 100, 5, 0⟩ 50

/-! ### C5 — bloom positive at checkout is not verified against the durable store -/

/-- C5 counterexample: the claim says a checkout fails `ItemAlreadySold` only if the
authoritative `items.sold` check confirms the filter positive.  In the concrete state
below the filter contains `I1` while the durable row for `I1` is unsold, yet the
handler rejects with `ItemAlreadySold` (checkout_command.go returns on the filter
positive without reading the item row). -/
theorem bloomCheckout_counterexample :
    (let it : Item := ⟨"I1", "S1", "item", false, none⟩
     let st : SysState :=
       ⟨⟨[⟨"S1", 0, 100, 5, 0⟩], [it], [], []⟩,
        { emptyCache with bloom := [("I1", ())] }⟩
     (Handle st "U1" "I1" 50 "aa" noFaults).2 = Except.error Err.itemAlreadySold ∧
       getItemByID st.db.items "I1" = some it ∧ it.sold = false) :=
  ⟨rfl, rfl, rfl⟩

/-- C5 amended: whenever the sold-items filter (read without infrastructure error)
reports the requested item as possibly sold, the checkout handler fails with
`ItemAlreadySold` immediately — the authoritative `items.sold` state is not
consulted and the state is left unchanged — so a filter false positive alone does
cause a checkout rejection. -/
theorem bloomCheckout_amended (st : SysState) (s : Sale) (userID itemID nonce : String)
    (now : Int) (hfind : getActiveSale st.db now = some s) (hact : s.IsActive now = true)
    (hbloom : st.cache.itemExistsInBloomFilter itemID = true) :
    Handle st userID itemID now nonce noFaults = (st, Except.error Err.itemAlreadySold) := by
  simp [Handle, hfind, hact, hbloom, noFaults]

/-- Witness for `bloomCheckout_amended` at a concrete state. -/
theorem bloomCheckout_witness :
    Handle ⟨⟨[⟨"S1", 0, 100, 5, 0⟩], [⟨"I1", "S1", "item", false, none⟩], [], []⟩,
        { emptyCache with bloom := [("I1", ())] }⟩ "U1" "I1" 50 "aa" noFaults
      = (⟨⟨[⟨"S1", 0, 100, 5, 0⟩], [⟨"I1", "S1", "item", false, none⟩], [], []⟩,
          { emptyCache with bloom := [("I1", ())] }⟩, Except.error Err.itemAlreadySold) :=
  bloomCheckout_amended _ ⟨"S1", 0, 100, 5, 0⟩ "U1" "I1" "aa" 50 rfl (by decide) rfl

/-! ### C10 — admission checks fail open -/

theorem checkoutCore_ne_userLimit (st : SysState) (s : Sale) (userID itemID nonce : String) :
    (checkoutCore st s userID itemID nonce).2 ≠ Except.error Err.userLimitExceeded := by
  unfold checkoutCore
  cases hI : getItemByID st.db.items itemID with
  | none => simp
  | some item =>
    simp only
    split_ifs <;> try simp
    all_goals try (split <;> try simp)
    all_goals try (split <;> simp)

/-- C10: the three coordination-store admission checks of the checkout handler fail
open.  When all three reads error (`AdmissionFaults` all set), the handler proceeds
exactly as though every check had passed and runs the authoritative `checkoutCore`
(item lookup, `items.sold` check, checkout append); and a `UserLimitExceeded`
rejection can only arise from a successfully-read slots check, never from an
erroring one. -/
theorem admissionFailOpen (st : SysState) (s : Sale) (userID itemID nonce : String)
    (now : Int) (hfind : getActiveSale st.db now = some s) (hact : s.IsActive now = true) :
    Handle st userID itemID now nonce ⟨true, true, true⟩ =
      checkoutCore st s userID itemID nonce ∧
    (∀ f : AdmissionFaults,
      (Handle st userID itemID now nonce f).2 = Except.error Err.userLimitExceeded →
      f.slotsErr = false ∧ st.cache.getAvailableCheckoutSlots s.id userID 10 ≤ 0) := by
  constructor
  · simp [Handle, hfind, hact]
  · intro f h
    simp only [Handle, hfind, hact, Bool.not_true, Bool.false_and, Bool.not_false] at h
    by_cases hb : (!f.bloomErr && st.cache.itemExistsInBloomFilter itemID) = true
    · simp [hb] at h
    · simp only [hb, if_false] at h
      by_cases hs : (!f.slotsErr &&
          decide (st.cache.getAvailableCheckoutSlots s.id userID 10 ≤ 0)) = true
      · rcases Bool.and_eq_true_iff.mp hs with ⟨h1, h2⟩
        exact ⟨by simpa using h1, by simpa using h2⟩
      · simp only [hs, if_false] at h
        by_cases hcv : (!f.checkedErr &&
            st.cache.hasUserCheckedOutItem s.id userID itemID) = true
        · simp [hcv] at h
        · simp only [hcv, if_false] at h
          exact absurd h (checkoutCore_ne_userLimit st s userID itemID nonce)

/-- Witness for `admissionFailOpen` at a concrete state. -/
theorem admissionFailOpen_witness :
    Handle ⟨⟨[⟨"S1", 0, 100, 5, 0⟩], [⟨"I1", "S1", "item", false, none⟩], [], []⟩, emptyCache⟩
        "U1" "I1" 50 "aa" ⟨true, true, true⟩ =
      checkoutCore
        ⟨⟨[⟨"S1", 0, 100, 5, 0⟩], [⟨"I1", "S1", "item", false, none⟩], [], []⟩, emptyCache⟩
        ⟨"S1", 0, 100, 5, 0⟩ "U1" "I1" "aa" :=
  (admissionFailOpen
    ⟨⟨[⟨"S1", 0, 100, 5, 0⟩], [⟨"I1", "S1", "item", false, none⟩], [], []⟩, emptyCache⟩
    ⟨"S1", 0, 100, 5, 0⟩ "U1" "I1" "aa" 50 rfl (by decide)).1

/-! ### C4 — counter reconciliation applied before the commit -/

/-- C4 (code bug): the claim — and §4.4 of the spec, which orders counter
reconciliation (step 15) after the commit (step 14) — says the `|successful|` counter
delta is applied only for an attempt whose transaction commits.  In the source,
`IncrementCounters` is called before `UpdateSale`/`SavePurchaseResult`/`CommitTx`,
so an attempt whose commit fails still applies the delta: below, a single-item
purchase whose commit fails leaves the durable store untouched but both coordination
counters incremented; retrying with a successful second commit sells nothing (the
per-item loop now skips the item via the filter adds, which also survived the
rollback) yet the counters remain at 1. -/
theorem counterIncrement_commitFailure :
    (let st : SysState :=
       ⟨⟨[⟨"S1", 0, 100, 5, 0⟩], [⟨"I1", "S1", "item", false, none⟩],
         [⟨"CHK-S1-aa", "S1", "U1", ["I1"]⟩], []⟩, emptyCache⟩
     let ck : Checkout := ⟨"CHK-S1-aa", "S1", "U1", ["I1"]⟩
     let r := attemptPurchase st ck 50 true
     let e := ExecutePurchase st "CHK-S1-aa" 50 [true, false]
     r.2 = Except.error Err.transactionFailed ∧
       r.1.db = st.db ∧
       r.1.cache.getSaleItemCount "S1" = 1 ∧
       r.1.cache.getUserItemCount "S1" "U1" = 1 ∧
       st.cache.getSaleItemCount "S1" = 0 ∧
       st.cache.getUserItemCount "S1" "U1" = 0 ∧
       e.2 = Except.error Err.allItemsSold ∧
       soldCountTo e.1.db.items "S1" "U1" = 0 ∧
       e.1.cache.getSaleItemCount "S1" = 1 ∧
       e.1.cache.getUserItemCount "S1" "U1" = 1) :=
  ⟨rfl, rfl, rfl, rfl, rfl, rfl, rfl, rfl, rfl, rfl⟩

/-! ### C2 — idempotency of a committed checkout code -/

theorem kdel_kset_self {κ α : Type} [DecidableEq κ] (m : List (κ × α)) (p : κ) (v : α) :
    kdel (kset m p v) p = kdel m p := by
  induction m with
  | nil => simp [kset, kdel]
  | cons hd tl ih =>
    obtain ⟨q, w⟩ := hd
    by_cases h : q = p <;> simp [kset, kdel, h, ih]

theorem attemptPurchase_processed (st2 st : SysState) (ck : Checkout) (now : Int)
    (f1 : Bool) (res : PurchaseResult)
    (hdb : st2.db = st.db)
    (hss : st2.cache.saleSold = st.cache.saleSold)
    (hus : st2.cache.userSold = st.cache.userSold)
    (hres : kget st.db.purchaseResults ck.code = some res)
    (hsale : st.cache.getSaleItemCount ck.saleID + (ck.itemIDs.length : Int) ≤ maxItemsPerSale)
    (huser : st.cache.getUserItemCount ck.saleID ck.userID + (ck.itemIDs.length : Int) ≤
      maxItemsPerUser) :
    attemptPurchase st2 ck now f1 = (st2, Except.error Err.checkoutAlreadyProcessed) := by
  unfold attemptPurchase
  have h1 : st2.cache.getSaleItemCount ck.saleID = st.cache.getSaleItemCount ck.saleID := by
    simp [Cache.getSaleItemCount, hss]
  have h2 : st2.cache.getUserItemCount ck.saleID ck.userID =
      st.cache.getUserItemCount ck.saleID ck.userID := by
    simp [Cache.getUserItemCount, hus]
  rw [h1, h2, hdb, hres]
  have hs : ¬(st.cache.getSaleItemCount ck.saleID + (ck.itemIDs.length : Int) >
      maxItemsPerSale) := by omega
  have hu : ¬(st.cache.getUserItemCount ck.saleID ck.userID + (ck.itemIDs.length : Int) >
      maxItemsPerUser) := by omega
  simp [hs, hu]

/-- C2 counterexample: the claim says that once a `purchase_results` row exists for a
code, any later `ExecutePurchase` with that code returns `CheckoutAlreadyProcessed`.
After a successful purchase, however, `cleanupCheckout` deletes the checkout rows, so
the later invocation fails at the checkout load with `CheckoutNotFound` instead.  The
state below is exactly the post-cleanup state: the result row exists and the checkout
row does not. -/
theorem purchaseIdempotency_counterexample :
    (let res : PurchaseResult := ⟨true, [⟨"I1", "item", true⟩], 1, 0⟩
     let st : SysState :=
       ⟨⟨[⟨"S1", 0, 100, 5, 1⟩], [⟨"I1", "S1", "item", true, some "U1"⟩], [],
         [("CHK-S1-aa", res)]⟩, emptyCache⟩
     kget st.db.purchaseResults "CHK-S1-aa" = some res ∧
       (ExecutePurchase st "CHK-S1-aa" 50 [false, false]).2 =
         Except.error Err.checkoutNotFound ∧
       Err.checkoutNotFound ≠ Err.checkoutAlreadyProcessed) :=
  ⟨rfl, rfl, by decide⟩

/-- C2 amended: for a code whose purchase has already committed, a later invocation
of `ExecutePurchase` that still finds the checkout row (cleanup failed or has not
run), passes the advisory counter pre-checks, and finds the exclusion key free,
returns `CheckoutAlreadyProcessed` and leaves the durable store (items, sales,
purchase results) and the coordination counters, filter and lock table unchanged;
when cleanup already removed the checkout row the invocation instead returns
`CheckoutNotFound`, also without state change. -/
theorem purchaseIdempotency_amended (st : SysState) (code : String) (ck : Checkout)
    (res : PurchaseResult) (now : Int) (f1 : Bool) (rest : List Bool)
    (hck : getCheckoutByCode st.db code = some ck)
    (hres : kget st.db.purchaseResults ck.code = some res)
    (hlock : kget st.cache.locks code = none)
    (hsale : st.cache.getSaleItemCount ck.saleID + (ck.itemIDs.length : Int) ≤ maxItemsPerSale)
    (huser : st.cache.getUserItemCount ck.saleID ck.userID + (ck.itemIDs.length : Int) ≤
      maxItemsPerUser) :
    (ExecutePurchase st code now (f1 :: rest)).2 = Except.error Err.checkoutAlreadyProcessed ∧
    (ExecutePurchase st code now (f1 :: rest)).1.db = st.db ∧
    (ExecutePurchase st code now (f1 :: rest)).1.cache.saleSold = st.cache.saleSold ∧
    (ExecutePurchase st code now (f1 :: rest)).1.cache.userSold = st.cache.userSold ∧
    (ExecutePurchase st code now (f1 :: rest)).1.cache.bloom = st.cache.bloom ∧
    (ExecutePurchase st code now (f1 :: rest)).1.cache.locks = st.cache.locks := by
  have hdel : ∀ u : Unit, kdel (kset st.cache.locks code u) code = st.cache.locks := by
    intro u
    rw [kdel_kset_self, kdel_of_kget_none st.cache.locks code hlock]
  by_cases hc : (kget st.cache.checkoutCodes code).isSome
  · have hrun := attemptPurchase_processed
      ⟨st.db, { st.cache with locks := kset st.cache.locks code () }⟩ st ck now f1 res
      rfl rfl rfl hres hsale huser
    simp [ExecutePurchase, hck, hc, hlock, purchaseLoop, hrun, isBusinessLogicError, hdel]
  · have hrun := attemptPurchase_processed
      ⟨st.db, { st.cache with
          checkoutCodes := kset st.cache.checkoutCodes code ()
          locks := kset st.cache.locks code () }⟩ st ck now f1 res
      rfl rfl rfl hres hsale huser
    simp [ExecutePurchase, hck, hc, hlock, purchaseLoop, hrun, isBusinessLogicError, hdel]

/-- Witness for `purchaseIdempotency_amended` at a concrete post-commit state in
which the checkout row is still present. -/
theorem purchaseIdempotency_witness :
    (let res : PurchaseResult := ⟨true, [⟨"I1", "item", true⟩], 1, 0⟩
     let st : SysState :=
       ⟨⟨[⟨"S1", 0, 100, 5, 1⟩], [⟨"I1", "S1", "item", true, some "U1"⟩],
         [⟨"CHK-S1-aa", "S1", "U1", ["I1"]⟩], [("CHK-S1-aa", res)]⟩, emptyCache⟩
     (ExecutePurchase st "CHK-S1-aa" 50 [false, false]).2 =
       Except.error Err.checkoutAlreadyProcessed ∧
     (ExecutePurchase st "CHK-S1-aa" 50 [false, false]).1.db = st.db) := by
  intro res st
  have h := purchaseIdempotency_amended st "CHK-S1-aa" ⟨"CHK-S1-aa", "S1", "U1", ["I1"]⟩
    res 50 false [false] rfl rfl rfl (by decide) (by decide)
  exact ⟨h.1, h.2.1⟩

/-! ### C8 — checkout-code reuse and duplicate-item protection -/

theorem updateCheckout_cons (hd : Checkout) (tl : List Checkout) (ck2 : Checkout) :
    updateCheckout (hd :: tl) ck2 =
      (if (hd.code == ck2.code) = true then ck2 else hd) :: updateCheckout tl ck2 :=
  rfl

theorem find_updateCheckout (cks : List Checkout) (code : String) (ck ck2 : Checkout)
    (hfind : cks.find? (fun t => t.code == code) = some ck) (hcode : ck2.code = ck.code) :
    (updateCheckout cks ck2).find? (fun t => t.code == code) = some ck2 := by
  have hckcode : ck.code = code := by
    have := List.find?_some hfind
    simpa using this
  induction cks with
  | nil => simp at hfind
  | cons hd tl ih =>
    rw [updateCheckout_cons]
    by_cases h : (hd.code == code) = true
    · have hhd : hd = ck := by
        simp only [List.find?, h] at hfind
        simpa using hfind
      subst hhd
      rw [if_pos (by simp [hcode])]
      simp [List.find?, hcode, hckcode]
    · rw [Bool.not_eq_true] at h
      rw [if_neg (by rw [hcode, hckcode]; simp [h])]
      simp only [List.find?, h] at hfind
      simp only [List.find?, h]
      exact ih hfind

theorem getCheckoutByCode_update (db : DB) (code : String) (ck ck2 : Checkout)
    (hfind : getCheckoutByCode db code = some ck) (hcode : ck2.code = ck.code) :
    getCheckoutByCode { db with checkouts := updateCheckout db.checkouts ck2 } code =
      some ck2 :=
  find_updateCheckout db.checkouts code ck ck2 hfind hcode

/-- Behaviour of the checkout handler when the active sale is found and all three
admission checks pass without error: it continues into `checkoutCore`. -/
theorem Handle_admission_pass (st : SysState) (s : Sale) (userID itemID nonce : String)
    (now : Int) (hfind : getActiveSale st.db now = some s) (hact : s.IsActive now = true)
    (hb : st.cache.itemExistsInBloomFilter itemID = false)
    (hsl : ¬ st.cache.getAvailableCheckoutSlots s.id userID 10 ≤ 0)
    (hchk : st.cache.hasUserCheckedOutItem s.id userID itemID = false) :
    Handle st userID itemID now nonce noFaults = checkoutCore st s userID itemID nonce := by
  simp [Handle, hfind, hact, hb, hsl, hchk, noFaults]

/-- Behaviour of `checkoutCore` when the user already holds a registered nonempty
checkout code `c` whose checkout row exists, and the requested item exists, belongs
to the sale and is unsold: the handler reuses `c` and appends via
`Checkout.AddItem`. -/
theorem checkoutCore_reuse (st : SysState) (s : Sale) (ck : Checkout) (item : Item)
    (userID itemID nonce c : String)
    (hcode : kget st.cache.userCheckoutCode (s.id, userID) = some c) (hc : c ≠ "")
    (hck : getCheckoutByCode st.db c = some ck)
    (hitem : getItemByID st.db.items itemID = some item)
    (hbelong : item.saleID = s.id) (hsold : item.sold = false) :
    checkoutCore st s userID itemID nonce =
      match ck.AddItem itemID with
      | none => (st, Except.error Err.userAlreadyCheckedOutItem)
      | some ck2 =>
        (finalizeCheckout
          { st with db := { st.db with checkouts := updateCheckout st.db.checkouts ck2 } }
          s.id userID itemID,
         Except.ok ⟨c, ck2.ItemCount, s.endedAt⟩) := by
  have hcbeq : (c == "") = false := by
    simpa using hc
  simp only [checkoutCore, hitem, hbelong, beq_self_eq_true, Bool.not_true,
    Bool.false_eq_true, if_false, hsold, hcode, Option.getD_some, hcbeq, hck]

/-- C8: within one sale (the user's cached checkout code `c` is still registered,
i.e. the checkout has not been purchased and the sale has not ended), a successful
checkout by the same user returns the same code `c` and appends the new item to the
same checkout row; and an item already present in the user's checkout is never
appended again — once the request passes the pre-checks that precede the duplicate
guard (filter negative, slots available) it fails with `UserAlreadyCheckedOutItem`. -/
theorem checkoutReuse (st : SysState) (s : Sale) (ck : Checkout) (item : Item)
    (userID itemID nonce c : String) (now : Int)
    (hfind : getActiveSale st.db now = some s) (hact : s.IsActive now = true)
    (hcode : kget st.cache.userCheckoutCode (s.id, userID) = some c) (hc : c ≠ "")
    (hck : getCheckoutByCode st.db c = some ck)
    (hitem : getItemByID st.db.items itemID = some item)
    (hbelong : item.saleID = s.id) (hsold : item.sold = false) :
    (∀ (st2 : SysState) (r : CheckoutResponse),
      Handle st userID itemID now nonce noFaults = (st2, Except.ok r) →
      r.code = c ∧ itemID ∉ ck.itemIDs ∧
      getCheckoutByCode st2.db c = some { ck with itemIDs := ck.itemIDs ++ [itemID] }) ∧
    (itemID ∈ ck.itemIDs →
      st.cache.itemExistsInBloomFilter itemID = false →
      ¬ st.cache.getAvailableCheckoutSlots s.id userID 10 ≤ 0 →
      (Handle st userID itemID now nonce noFaults).2 =
        Except.error Err.userAlreadyCheckedOutItem) := by
  constructor
  · intro st2 r h
    by_cases hb : st.cache.itemExistsInBloomFilter itemID = true
    · simp [Handle, hfind, hact, hb, noFaults] at h
    · rw [Bool.not_eq_true] at hb
      by_cases hsl : st.cache.getAvailableCheckoutSlots s.id userID 10 ≤ 0
      · simp [Handle, hfind, hact, hb, hsl, noFaults] at h
      · by_cases hchk : st.cache.hasUserCheckedOutItem s.id userID itemID = true
        · simp [Handle, hfind, hact, hb, hsl, hchk, noFaults] at h
        · rw [Bool.not_eq_true] at hchk
          rw [Handle_admission_pass st s userID itemID nonce now hfind hact hb hsl hchk,
            checkoutCore_reuse st s ck item userID itemID nonce c hcode hc hck hitem
              hbelong hsold] at h
          cases hadd : ck.AddItem itemID with
          | none =>
            rw [hadd] at h
            simp at h
          | some ck2 =>
            rw [hadd] at h
            have hni : itemID ∉ ck.itemIDs := by
              intro hmem
              rw [Checkout.AddItem, if_pos (by simpa using hmem)] at hadd
              cases hadd
            have hck2 : ck2 = { ck with itemIDs := ck.itemIDs ++ [itemID] } := by
              rw [Checkout.AddItem, if_neg (by simpa using hni)] at hadd
              exact (Option.some.inj hadd).symm
            rw [Prod.mk.injEq] at h
            obtain ⟨hst2, hr⟩ := h
            have hr2 : r = ⟨c, ck2.ItemCount, s.endedAt⟩ := by
              simpa using hr.symm
            refine ⟨by rw [hr2], hni, ?_⟩
            rw [← hst2]
            subst hck2
            exact getCheckoutByCode_update st.db c ck _ hck rfl
  · intro hmem hb hsl
    by_cases hchk : st.cache.hasUserCheckedOutItem s.id userID itemID = true
    · simp [Handle, hfind, hact, hb, hsl, hchk, noFaults]
    · rw [Bool.not_eq_true] at hchk
      rw [Handle_admission_pass st s userID itemID nonce now hfind hact hb hsl hchk,
        checkoutCore_reuse st s ck item userID itemID nonce c hcode hc hck hitem
          hbelong hsold]
      have hadd : ck.AddItem itemID = none := by
        rw [Checkout.AddItem, if_pos (by simpa using hmem)]
      rw [hadd]

/-- Witness for `checkoutReuse`: a concrete second checkout of a fresh item by the
same user returns the cached code and appends to the existing checkout. -/
theorem checkoutReuse_witness :
    (let ck : Checkout := ⟨"CHK-S1-aa", "S1", "U1", ["I1"]⟩
     let st : SysState :=
       ⟨⟨[⟨"S1", 0, 100, 5, 0⟩],
         [⟨"I1", "S1", "item", false, none⟩, ⟨"I2", "S1", "item2", false, none⟩],
         [ck], []⟩,
        { emptyCache with
            userCheckoutCode := [(("S1", "U1"), "CHK-S1-aa")]
            checkoutCount := [(("S1", "U1"), 1)]
            checkedItems := [(("S1", "U1", "I1"), ())] }⟩
     ∀ (st2 : SysState) (r : CheckoutResponse),
       Handle st "U1" "I2" 50 "bb" noFaults = (st2, Except.ok r) →
       r.code = "CHK-S1-aa" ∧ "I2" ∉ ck.itemIDs ∧
       getCheckoutByCode st2.db "CHK-S1-aa" =
         some { ck with itemIDs := ck.itemIDs ++ ["I2"] }) := by
  intro ck st
  exact (checkoutReuse st ⟨"S1", 0, 100, 5, 0⟩ ck ⟨"I2", "S1", "item2", false, none⟩
    "U1" "I2" "bb" "CHK-S1-aa" 50 rfl (by decide) rfl (by decide) rfl rfl rfl rfl).1

/-! ### Evolution of the items table

Every durable write to an item row goes through `markItemAsSold` (the conditional
single-winner UPDATE); the lemmas below capture what one such write can and cannot
do, and `Reach` closes them under sequences of writes. -/

theorem markItemAsSold_snd (items : List Item) (x u : String) :
    (markItemAsSold items x u).2 =
      items.map fun it =>
        if (it.id == x && !it.sold) = true then
          { it with sold := true, soldToUserID := some u }
        else it :=
  rfl

theorem mark_map_pair (items : List Item) (x u : String) :
    ((markItemAsSold items x u).2).map (fun it => (it.id, it.saleID)) =
      items.map fun it => (it.id, it.saleID) := by
  rw [markItemAsSold_snd, List.map_map]
  apply List.map_congr_left
  intro it hit
  by_cases h : (it.id == x && !it.sold) = true
  · rw [Function.comp_apply, if_pos h]
  · rw [Function.comp_apply, if_neg h]

theorem mark_map_id (items : List Item) (x u : String) :
    ((markItemAsSold items x u).2).map (fun it => it.id) = items.map fun it => it.id := by
  rw [markItemAsSold_snd, List.map_map]
  apply List.map_congr_left
  intro it hit
  by_cases h : (it.id == x && !it.sold) = true
  · rw [Function.comp_apply, if_pos h]
  · rw [Function.comp_apply, if_neg h]

theorem allSold_mark (items : List Item) (x y u : String) (h : allSold items x) :
    allSold (markItemAsSold items y u).2 x := by
  intro it' hmem hid
  rw [markItemAsSold_snd] at hmem
  rcases List.mem_map.mp hmem with ⟨it, hit, heq⟩
  by_cases hc : (it.id == y && !it.sold) = true
  · rw [if_pos hc] at heq
    rw [← heq]
  · rw [if_neg hc] at heq
    subst heq
    exact h it hit hid

/-- The conditional update on `x` leaves every row of `x` sold: the UPDATE marks all
unsold rows matching `id = x` and the sold ones were already sold. -/
theorem allSold_mark_self (items : List Item) (x u : String) :
    allSold (markItemAsSold items x u).2 x := by
  intro it' hmem hid
  rw [markItemAsSold_snd] at hmem
  rcases List.mem_map.mp hmem with ⟨it, hit, heq⟩
  by_cases hc : (it.id == x && !it.sold) = true
  · rw [if_pos hc] at heq
    rw [← heq]
  · rw [if_neg hc] at heq
    subst heq
    have hidx : (it.id == x) = true := by simp [hid]
    simp only [hidx, Bool.true_and] at hc
    simpa using hc

/-- A conditional update that affected no row (`rowsAffected = 0`) is a no-op. -/
theorem mark_fail (items : List Item) (x u : String)
    (h : (markItemAsSold items x u).1 = false) :
    (markItemAsSold items x u).2 = items := by
  have hall : ∀ it ∈ items, (it.id == x && !it.sold) = false := by
    intro it hit
    have hany : items.any (fun it => it.id == x && !it.sold) = false := h
    rw [List.any_eq_false] at hany
    simpa using hany it hit
  rw [markItemAsSold_snd]
  have hcong : ∀ it ∈ items,
      (if (it.id == x && !it.sold) = true then
        { it with sold := true, soldToUserID := some u } else it) = id it := by
    intro it hit
    simp [hall it hit]
  rw [List.map_congr_left hcong, List.map_id]

/-- A sold row is frozen: the primary-key lookup keeps returning it unchanged after
any conditional update. -/
theorem mark_find_frozen (items : List Item) (x y u : String) (it : Item)
    (hfind : getItemByID items x = some it) (hsold : it.sold = true) :
    getItemByID (markItemAsSold items y u).2 x = some it := by
  rw [markItemAsSold_snd]
  unfold getItemByID at hfind ⊢
  induction items with
  | nil => simp at hfind
  | cons hd tl ih =>
    simp only [List.map_cons, List.find?]
    by_cases h : (hd.id == x) = true
    · simp only [List.find?, h] at hfind
      have hhd : hd = it := by simpa using hfind
      subst hhd
      rw [if_neg (by simp [hsold])]
      simp [List.find?, h]
    · rw [Bool.not_eq_true] at h
      simp only [List.find?, h] at hfind
      have hid2 : (if (hd.id == y && !hd.sold) = true then
          { hd with sold := true, soldToUserID := some u } else hd).id = hd.id := by
        by_cases hc : (hd.id == y && !hd.sold) = true <;> simp [hc]
      simp only [List.find?, hid2, h]
      exact ih hfind

theorem Reach.trans (a b c : List Item) (h1 : Reach a b) (h2 : Reach b c) : Reach a c := by
  induction h2 with
  | refl => exact h1
  | mark d y u hr ih => exact Reach.mark a d y u ih

theorem reach_allSold (a b : List Item) (x : String) (h : Reach a b)
    (hall : allSold a x) : allSold b x := by
  induction h with
  | refl => exact hall
  | mark d y u hr ih => exact allSold_mark d x y u ih

theorem reach_find_frozen (a b : List Item) (x : String) (it : Item) (h : Reach a b)
    (hfind : getItemByID a x = some it) (hsold : it.sold = true) :
    getItemByID b x = some it := by
  induction h with
  | refl => exact hfind
  | mark d y u hr ih => exact mark_find_frozen d x y u it ih hsold

theorem reach_map_id (a b : List Item) (h : Reach a b) :
    b.map (fun it => it.id) = a.map fun it => it.id := by
  induction h with
  | refl => rfl
  | mark d y u hr ih => rw [mark_map_id, ih]

theorem reach_map_pair (a b : List Item) (h : Reach a b) :
    b.map (fun it => (it.id, it.saleID)) = a.map fun it => (it.id, it.saleID) := by
  induction h with
  | refl => rfl
  | mark d y u hr ih => rw [mark_map_pair, ih]

theorem processItems_reach (bloom : List (String × Unit)) (items0 : List Item)
    (u : String) (l : List Item) :
    Reach items0 (processItems bloom items0 u l).items := by
  suffices h : ∀ acc : LoopState, Reach items0 acc.items →
      Reach items0 (l.foldl (purchaseStep u) acc).items by
    exact h ⟨bloom, items0, []⟩ (Reach.refl items0)
  induction l with
  | nil => intro acc hacc; exact hacc
  | cons it rest ih =>
    intro acc hacc
    rw [List.foldl_cons]
    apply ih
    simp only [purchaseStep]
    split
    · exact hacc
    · split
      · exact Reach.mark items0 acc.items it.id u hacc
      · exact Reach.mark items0 acc.items it.id u hacc

theorem processItems_successes_le (bloom : List (String × Unit)) (items0 : List Item)
    (u : String) (l : List Item) :
    (processItems bloom items0 u l).successes.length ≤ l.length := by
  suffices h : ∀ acc : LoopState,
      (l.foldl (purchaseStep u) acc).successes.length ≤ acc.successes.length + l.length by
    simpa using h ⟨bloom, items0, []⟩
  induction l with
  | nil => intro acc; simp
  | cons it rest ih =>
    intro acc
    rw [List.foldl_cons]
    have hstep : (purchaseStep u acc it).successes.length ≤ acc.successes.length + 1 := by
      simp only [purchaseStep]
      split
      · simp
      · split <;> simp
    have := ih (purchaseStep u acc it)
    simp only [List.length_cons]
    omega

theorem processItems_allSold (bloom : List (String × Unit)) (items0 : List Item)
    (u : String) (l : List Item) (x : String) (hall : allSold items0 x) :
    allSold (processItems bloom items0 u l).items x ∧
    x ∉ (processItems bloom items0 u l).successes := by
  suffices h : ∀ acc : LoopState, allSold acc.items x → x ∉ acc.successes →
      allSold (l.foldl (purchaseStep u) acc).items x ∧
      x ∉ (l.foldl (purchaseStep u) acc).successes by
    exact h ⟨bloom, items0, []⟩ hall (by simp)
  induction l with
  | nil => intro acc h1 h2; exact ⟨h1, h2⟩
  | cons it rest ih =>
    intro acc h1 h2
    rw [List.foldl_cons]
    apply ih
    · simp only [purchaseStep]
      split
      · exact h1
      · split <;> exact allSold_mark acc.items x it.id u h1
    · simp only [purchaseStep]
      split
      · exact h2
      · split
        · intro hmem
          rcases List.mem_append.mp hmem with hm | hm
          · exact h2 hm
          · have hx : x = it.id := by simpa using hm
            rename_i hsucc
            have hany : acc.items.any (fun r => r.id == it.id && !r.sold) = true := hsucc
            rcases List.any_eq_true.mp hany with ⟨r, hr, hpred⟩
            rcases Bool.and_eq_true_iff.mp hpred with ⟨hid, hns⟩
            have hrid : r.id = x := by rw [hx]; simpa using hid
            have hrs : r.sold = true := h1 r hr hrid
            simp [hrs] at hns
        · intro hmem
          exact h2 hmem

theorem processItems_success_allSold (bloom : List (String × Unit)) (items0 : List Item)
    (u : String) (l : List Item) (x : String)
    (hx : x ∈ (processItems bloom items0 u l).successes) :
    allSold (processItems bloom items0 u l).items x := by
  suffices h : ∀ acc : LoopState, (x ∈ acc.successes → allSold acc.items x) →
      (x ∈ (l.foldl (purchaseStep u) acc).successes →
        allSold (l.foldl (purchaseStep u) acc).items x) by
    exact h ⟨bloom, items0, []⟩ (by simp) hx
  clear hx
  induction l with
  | nil => intro acc h1; exact h1
  | cons it rest ih =>
    intro acc h1
    rw [List.foldl_cons]
    refine ih (purchaseStep u acc it) ?_
    unfold purchaseStep
    dsimp only
    split
    · exact h1
    · split
      · intro hmem
        rcases List.mem_append.mp hmem with hm | hm
        · exact allSold_mark acc.items x it.id u (h1 hm)
        · have hx2 : x = it.id := by simpa using hm
          rw [hx2]
          exact allSold_mark_self acc.items it.id u
      · intro hmem
        exact allSold_mark acc.items x it.id u (h1 hmem)

theorem attemptPurchase_reach (st : SysState) (ck : Checkout) (now : Int) (f : Bool) :
    Reach st.db.items ((attemptPurchase st ck now f).1).db.items := by
  unfold attemptPurchase
  dsimp only
  repeat' split
  all_goals first
    | exact Reach.refl _
    | exact processItems_reach _ _ _ _

theorem purchaseLoop_reach (ck : Checkout) (now : Int) (fl : List Bool) (st : SysState) :
    Reach st.db.items ((purchaseLoop st ck now fl).1).db.items := by
  induction fl generalizing st with
  | nil => exact Reach.refl _
  | cons f rest ih =>
    rw [purchaseLoop]
    have h2 := attemptPurchase_reach st ck now f
    cases hA : attemptPurchase st ck now f with
    | mk st2 res =>
      rw [hA] at h2
      cases res with
      | ok r => exact h2
      | error e =>
        by_cases hbr : (isBusinessLogicError e || rest.isEmpty) = true
        · simp only [hbr, if_true]
          exact h2
        · simp only [hbr, Bool.false_eq_true, if_false]
          exact Reach.trans _ _ _ h2 (ih st2)

theorem purchaseLoop_reach_of (ck : Checkout) (now : Int) (fl : List Bool)
    (st : SysState) (items0 : List Item) (h : items0 = st.db.items) :
    Reach items0 ((purchaseLoop st ck now fl).1).db.items := by
  rw [h]
  exact purchaseLoop_reach ck now fl st

theorem ExecutePurchase_reach (st : SysState) (code : String) (now : Int)
    (fl : List Bool) :
    Reach st.db.items ((ExecutePurchase st code now fl).1).db.items := by
  unfold ExecutePurchase
  dsimp only
  repeat' split
  all_goals first
    | exact Reach.refl _
    | exact purchaseLoop_reach_of _ _ _ _ _ rfl

theorem checkoutCore_preserves (st : SysState) (s : Sale) (u i nonce : String) :
    ((checkoutCore st s u i nonce).1).db.items = st.db.items ∧
    ((checkoutCore st s u i nonce).1).cache.userSold = st.cache.userSold ∧
    ((checkoutCore st s u i nonce).1).cache.saleSold = st.cache.saleSold := by
  unfold checkoutCore finalizeCheckout Cache.addItemToBloomFilter
    Cache.incrementUserCheckoutCount Cache.addUserCheckedOutItem
  dsimp only
  split
  · exact ⟨rfl, rfl, rfl⟩
  · split
    · exact ⟨rfl, rfl, rfl⟩
    · split
      · exact ⟨rfl, rfl, rfl⟩
      · by_cases hc : ((kget st.cache.userCheckoutCode (s.id, u)).getD "" == "") = true
        · simp only [if_pos hc]
          split
          · split_ifs <;> exact ⟨rfl, rfl, rfl⟩
          · split <;> exact ⟨rfl, rfl, rfl⟩
        · simp only [if_neg hc]
          split
          · split_ifs <;> exact ⟨rfl, rfl, rfl⟩
          · split <;> exact ⟨rfl, rfl, rfl⟩

theorem Handle_preserves (st : SysState) (u i : String) (now : Int) (nonce : String)
    (f : AdmissionFaults) :
    ((Handle st u i now nonce f).1).db.items = st.db.items ∧
    ((Handle st u i now nonce f).1).cache.userSold = st.cache.userSold ∧
    ((Handle st u i now nonce f).1).cache.saleSold = st.cache.saleSold := by
  unfold Handle
  split
  · exact ⟨rfl, rfl, rfl⟩
  · rename_i s hs
    split_ifs <;> first
      | exact ⟨rfl, rfl, rfl⟩
      | exact checkoutCore_preserves st s u i nonce

theorem stepOp_reach (st : SysState) (op : Op) :
    Reach st.db.items ((stepOp st op).db.items) := by
  cases op with
  | checkout u i now nonce f =>
    have h := (Handle_preserves st u i now nonce f).1
    unfold stepOp
    rw [h]
    exact Reach.refl _
  | purchase code now f1 f2 => exact ExecutePurchase_reach st code now [f1, f2]
  | expireUserCount s u => exact Reach.refl _

theorem runOps_reach (st : SysState) (ops : List Op) :
    Reach st.db.items ((runOps st ops).db.items) := by
  induction ops generalizing st with
  | nil => exact Reach.refl _
  | cons op rest ih =>
    exact Reach.trans _ _ _ (stepOp_reach st op) (ih (stepOp st op))

/-- Sequencing of engine runs; every intermediate state of a run is the final state
of a prefix run. -/
theorem runOps_append (st : SysState) (l1 l2 : List Op) :
    runOps st (l1 ++ l2) = runOps (runOps st l1) l2 := by
  induction l1 generalizing st with
  | nil => rfl
  | cons op rest ih => simpa [runOps] using ih (stepOp st op)

theorem reportsSold_calc (items : List Item) (succ : List String) (x : String)
    (h : x ∉ succ) :
    reportsSold (Except.ok (CalculatePurchaseResult items succ)) x = false := by
  simp only [reportsSold, CalculatePurchaseResult]
  rw [List.any_eq_false]
  intro ir hir
  rcases List.mem_map.mp hir with ⟨it, hit, heq⟩
  subst heq
  by_cases hx : (it.id == x) = true
  · have hidx : it.id = x := by simpa using hx
    simp [hidx, h]
  · simp [hx]

theorem attemptPurchase_noReport (st : SysState) (ck : Checkout) (now : Int) (f : Bool)
    (x : String) (hall : allSold st.db.items x) :
    reportsSold (attemptPurchase st ck now f).2 x = false := by
  unfold attemptPurchase
  dsimp only
  repeat' split
  all_goals try rfl
  all_goals
    exact reportsSold_calc _ _ x
      ((processItems_allSold st.cache.bloom st.db.items ck.userID _ x hall).2)

theorem purchaseLoop_noReport (ck : Checkout) (now : Int) (x : String) (fl : List Bool) :
    ∀ st : SysState, allSold st.db.items x →
    allSold (((purchaseLoop st ck now fl).1).db.items) x ∧
    reportsSold (purchaseLoop st ck now fl).2 x = false := by
  induction fl with
  | nil => intro st hall; exact ⟨hall, rfl⟩
  | cons f rest ih =>
    intro st hall
    have hA := attemptPurchase_noReport st ck now f x hall
    have hAll : allSold (((attemptPurchase st ck now f).1).db.items) x :=
      reach_allSold _ _ x (attemptPurchase_reach st ck now f) hall
    rw [purchaseLoop]
    cases hEq : attemptPurchase st ck now f with
    | mk st2 res =>
      rw [hEq] at hA hAll
      cases res with
      | ok r => exact ⟨hAll, hA⟩
      | error e =>
        by_cases hbr : (isBusinessLogicError e || rest.isEmpty) = true
        · simp only [hbr, if_true]
          exact ⟨hAll, rfl⟩
        · simp only [hbr, Bool.false_eq_true, if_false]
          exact ih st2 hAll

theorem ExecutePurchase_noReport (st : SysState) (code : String) (now : Int)
    (fl : List Bool) (x : String) (hall : allSold st.db.items x) :
    allSold (((ExecutePurchase st code now fl).1).db.items) x ∧
    reportsSold (ExecutePurchase st code now fl).2 x = false := by
  unfold ExecutePurchase
  dsimp only
  split
  · exact ⟨hall, rfl⟩
  · rename_i ck hck
    by_cases hcic : (kget st.cache.checkoutCodes code).isSome = true
    · rw [if_pos hcic]
      have hLoop := purchaseLoop_noReport ck now x fl
        ⟨st.db, { st.cache with locks := kset st.cache.locks code () }⟩ hall
      split
      · exact ⟨hall, rfl⟩
      · split
        · exact ⟨hLoop.1, rfl⟩
        · rename_i r heq
          refine ⟨hLoop.1, ?_⟩
          have h2 := hLoop.2
          rw [heq] at h2
          exact h2
    · rw [if_neg hcic]
      have hLoop := purchaseLoop_noReport ck now x fl
        ⟨st.db, { st.cache with
          checkoutCodes := kset st.cache.checkoutCodes code ()
          locks := kset st.cache.locks code () }⟩ hall
      split
      · exact ⟨hall, rfl⟩
      · split
        · exact ⟨hLoop.1, rfl⟩
        · rename_i r heq
          refine ⟨hLoop.1, ?_⟩
          have h2 := hLoop.2
          rw [heq] at h2
          exact h2

theorem soldReports_zero (ops : List Op) (x : String) : ∀ st : SysState,
    allSold st.db.items x → soldReports st ops x = 0 := by
  induction ops with
  | nil => intro st hall; rfl
  | cons op rest ih =>
    intro st hall
    have hrest := ih (stepOp st op) (reach_allSold _ _ x (stepOp_reach st op) hall)
    cases op with
    | checkout u i now nonce f => simpa [soldReports] using hrest
    | expireUserCount s u => simpa [soldReports] using hrest
    | purchase code now f1 f2 =>
      have hrep := (ExecutePurchase_noReport st code now [f1, f2] x hall).2
      simp [soldReports, hrep, hrest]

theorem reportsSold_calc_mem (items : List Item) (succ : List String) (x : String)
    (h : reportsSold (Except.ok (CalculatePurchaseResult items succ)) x = true) :
    x ∈ succ := by
  simp only [reportsSold, CalculatePurchaseResult] at h
  rw [List.any_eq_true] at h
  rcases h with ⟨ir, hir, hpred⟩
  rcases List.mem_map.mp hir with ⟨it, hit, heq⟩
  subst heq
  rcases Bool.and_eq_true_iff.mp hpred with ⟨hid, hsold⟩
  have hidx : it.id = x := by simpa using hid
  rw [hidx] at hsold
  simpa using hsold

theorem attemptPurchase_ok (st : SysState) (ck : Checkout) (now : Int) (f : Bool)
    (st2 : SysState) (r : PurchaseResult)
    (h : attemptPurchase st ck now f = (st2, Except.ok r)) :
    r = CalculatePurchaseResult (ck.itemIDs.filterMap (getItemByID st.db.items))
          (processItems st.cache.bloom st.db.items ck.userID
            (ck.itemIDs.filterMap (getItemByID st.db.items))).successes ∧
    st2.db.items = (processItems st.cache.bloom st.db.items ck.userID
          (ck.itemIDs.filterMap (getItemByID st.db.items))).items := by
  unfold attemptPurchase at h
  dsimp only at h
  repeat' split at h
  all_goals first
    | (have h1 := congrArg Prod.fst h
       have h2 := congrArg Prod.snd h
       dsimp only at h1 h2
       refine ⟨(Except.ok.inj h2).symm, ?_⟩
       rw [← h1])
    | (exfalso
       have h2 := congrArg Prod.snd h
       simp at h2)

theorem attemptPurchase_report_allSold (st : SysState) (ck : Checkout) (now : Int)
    (f : Bool) (x : String)
    (hrep : reportsSold (attemptPurchase st ck now f).2 x = true) :
    allSold (((attemptPurchase st ck now f).1).db.items) x := by
  cases hE : attemptPurchase st ck now f with
  | mk st2 res =>
    rw [hE] at hrep
    cases res with
    | error e => simp [reportsSold] at hrep
    | ok r =>
      rcases attemptPurchase_ok st ck now f st2 r hE with ⟨hr, hst2⟩
      show allSold st2.db.items x
      rw [hst2]
      apply processItems_success_allSold
      apply reportsSold_calc_mem _ _ x
      rw [← hr]
      exact hrep

theorem purchaseLoop_report_allSold (ck : Checkout) (now : Int) (x : String)
    (fl : List Bool) : ∀ st : SysState,
    reportsSold (purchaseLoop st ck now fl).2 x = true →
    allSold (((purchaseLoop st ck now fl).1).db.items) x := by
  induction fl with
  | nil => intro st h; simp [purchaseLoop, reportsSold] at h
  | cons f rest ih =>
    intro st h
    rw [purchaseLoop] at h ⊢
    cases hE : attemptPurchase st ck now f with
    | mk st2 res =>
      rw [hE] at h
      cases res with
      | ok r =>
        dsimp only at h ⊢
        have h2 := attemptPurchase_report_allSold st ck now f x (by rw [hE]; exact h)
        rw [hE] at h2
        exact h2
      | error e =>
        dsimp only at h ⊢
        by_cases hbr : (isBusinessLogicError e || rest.isEmpty) = true
        · rw [if_pos hbr] at h
          simp [reportsSold] at h
        · rw [if_neg hbr] at h ⊢
          exact ih st2 h

theorem ExecutePurchase_report_allSold (st : SysState) (code : String) (now : Int)
    (fl : List Bool) (x : String)
    (hrep : reportsSold (ExecutePurchase st code now fl).2 x = true) :
    allSold (((ExecutePurchase st code now fl).1).db.items) x := by
  revert hrep
  unfold ExecutePurchase
  dsimp only
  split
  · intro h; simp [reportsSold] at h
  · rename_i ck hck
    by_cases hcic : (kget st.cache.checkoutCodes code).isSome = true
    · rw [if_pos hcic]
      split
      · intro h; simp [reportsSold] at h
      · split
        · intro h; simp [reportsSold] at h
        · rename_i r heq
          intro h
          exact purchaseLoop_report_allSold ck now x fl
            ⟨st.db, { st.cache with locks := kset st.cache.locks code () }⟩
            (by rw [heq]; exact h)
    · rw [if_neg hcic]
      split
      · intro h; simp [reportsSold] at h
      · split
        · intro h; simp [reportsSold] at h
        · rename_i r heq
          intro h
          exact purchaseLoop_report_allSold ck now x fl
            ⟨st.db, { st.cache with
              checkoutCodes := kset st.cache.checkoutCodes code ()
              locks := kset st.cache.locks code () }⟩
            (by rw [heq]; exact h)

theorem soldReports_le_one (ops : List Op) (x : String) : ∀ st : SysState,
    soldReports st ops x ≤ 1 := by
  induction ops with
  | nil => intro st; simp [soldReports]
  | cons op rest ih =>
    intro st
    cases op with
    | checkout u i now nonce f => simpa [soldReports] using ih _
    | expireUserCount s u => simpa [soldReports] using ih _
    | purchase code now f1 f2 =>
      by_cases hrep : reportsSold (ExecutePurchase st code now [f1, f2]).2 x = true
      · have hall : allSold ((stepOp st (Op.purchase code now f1 f2)).db.items) x :=
          ExecutePurchase_report_allSold st code now [f1, f2] x hrep
        have hz := soldReports_zero rest x _ hall
        simp [soldReports, hrep, hz]
      · rw [Bool.not_eq_true] at hrep
        have h2 := ih (stepOp st (Op.purchase code now f1 f2))
        simp only [soldReports, hrep, Bool.false_eq_true, if_false]
        omega

/-- C1: no double-sell.  Over every run of engine operations (checkouts, purchases
with arbitrary commit-failure schedules, counter expiries) and every item id `x`:
(i) at most one purchase operation returns a result reporting `x` with `sold = true`;
(ii) a sold row of `x` is terminal — the conditional update
`UPDATE … WHERE id = x AND sold = FALSE` is the only write to item rows, so once the
row is sold its buyer never changes; (iii) row ids are preserved, so the primary key
keeps `x` on a single row and no second `sold = true` row can appear; (iv) runs
compose, so (ii) and (iii) hold at every intermediate state of every run. -/
theorem noDoubleSell (st : SysState) (ops : List Op) (x : String) :
    soldReports st ops x ≤ 1 ∧
    (∀ it : Item, getItemByID st.db.items x = some it → it.sold = true →
      getItemByID (runOps st ops).db.items x = some it) ∧
    (runOps st ops).db.items.map (fun it => it.id) = st.db.items.map (fun it => it.id) ∧
    (∀ l1 l2 : List Op, runOps st (l1 ++ l2) = runOps (runOps st l1) l2) := by
  refine ⟨soldReports_le_one ops x st, ?_, reach_map_id _ _ (runOps_reach st ops), ?_⟩
  · intro it hfind hsold
    exact reach_find_frozen _ _ x it (runOps_reach st ops) hfind hsold
  · intro l1 l2
    exact runOps_append st l1 l2

/-- Witness for `noDoubleSell`: a concrete run in which a second buyer attempts to
purchase an item already sold to `U9`; the report count stays ≤ 1 and the row keeps
its original buyer. -/
theorem noDoubleSell_witness :
    (let it : Item := ⟨"I1", "S1", "item", true, some "U9"⟩
     let st : SysState :=
       ⟨⟨[⟨"S1", 0, 100, 5, 1⟩], [it], [⟨"CHK-S1-bb", "S1", "U2", ["I1"]⟩], []⟩,
        emptyCache⟩
     let ops : List Op := [Op.purchase "CHK-S1-bb" 50 false false]
     soldReports st ops "I1" ≤ 1 ∧
       getItemByID (runOps st ops).db.items "I1" = some it) := by
  intro it st ops
  refine ⟨(noDoubleSell st ops "I1").1, ?_⟩
  exact (noDoubleSell st ops "I1").2.1 it rfl rfl

/-! ### Counting sold items per (sale, user) -/

theorem soldCountTo_mark_congr (items : List Item) (x u S U : String)
    (hrow : ∀ it ∈ items, it.id = x → it.sold = false → ¬(it.saleID = S ∧ u = U)) :
    soldCountTo (markItemAsSold items x u).2 S U = soldCountTo items S U := by
  unfold soldCountTo
  rw [markItemAsSold_snd, List.filter_map, List.length_map]
  congr 1
  apply List.filter_congr
  intro it hit
  by_cases hc : (it.id == x && !it.sold) = true
  · rcases Bool.and_eq_true_iff.mp hc with ⟨hid, hns⟩
    have hidx : it.id = x := by simpa using hid
    have hsold : it.sold = false := by simpa using hns
    have hn := hrow it hit hidx hsold
    simp only [Function.comp_apply, if_pos hc]
    by_cases hS : it.saleID = S
    · have hu : ¬ u = U := fun hu => hn ⟨hS, hu⟩
      simp [hS, hsold, hu]
    · simp [hS, hsold]
  · simp only [Function.comp_apply, if_neg hc]

theorem mark_map_noop (tl : List Item) (x u : String) (hno : ∀ it ∈ tl, it.id ≠ x) :
    (markItemAsSold tl x u).2 = tl := by
  rw [markItemAsSold_snd]
  have hcong : ∀ it ∈ tl,
      (if (it.id == x && !it.sold) = true then
        { it with sold := true, soldToUserID := some u } else it) = id it := by
    intro it hit
    have : (it.id == x) = false := by simpa using hno it hit
    simp [this]
  rw [List.map_congr_left hcong, List.map_id]

theorem soldCountTo_cons (hd : Item) (tl : List Item) (S U : String) :
    soldCountTo (hd :: tl) S U =
      (if (hd.saleID == S && hd.sold && hd.soldToUserID == some U) = true then 1 else 0) +
        soldCountTo tl S U := by
  unfold soldCountTo
  rw [List.filter_cons]
  split <;> simp [Nat.add_comm]

theorem soldCountTo_mark_le (items : List Item) (x u S U : String)
    (hpk : (items.map (fun it => it.id)).Nodup) :
    soldCountTo (markItemAsSold items x u).2 S U ≤ soldCountTo items S U + 1 := by
  induction items with
  | nil => simp [markItemAsSold_snd, soldCountTo]
  | cons hd tl ih =>
    rw [List.map_cons, List.nodup_cons] at hpk
    obtain ⟨hhd, htl⟩ := hpk
    rw [markItemAsSold_snd, List.map_cons]
    rw [soldCountTo_cons, soldCountTo_cons]
    by_cases hc : (hd.id == x && !hd.sold) = true
    · rcases Bool.and_eq_true_iff.mp hc with ⟨hid, hns⟩
      have hidx : hd.id = x := by simpa using hid
      have hsold : hd.sold = false := by simpa using hns
      have hno : ∀ it ∈ tl, it.id ≠ x := by
        intro it hit hx
        exact hhd (by rw [hidx, ← hx]; exact List.mem_map_of_mem _ hit)
      have htlnoop : tl.map (fun it =>
          if (it.id == x && !it.sold) = true then
            { it with sold := true, soldToUserID := some u } else it) = tl := by
        have := mark_map_noop tl x u hno
        rwa [markItemAsSold_snd] at this
      rw [if_pos hc, htlnoop]
      have h0 : (if (hd.saleID == S && hd.sold && hd.soldToUserID == some U) = true
          then 1 else 0) = 0 := by
        simp [hsold]
      split <;> omega
    · rw [if_neg hc]
      have hb := ih htl
      rw [markItemAsSold_snd] at hb
      split <;> omega

theorem filterMap_getItemByID_mem (items : List Item) (ids : List String) (it : Item)
    (h : it ∈ ids.filterMap (getItemByID items)) : it ∈ items := by
  rcases List.mem_filterMap.mp h with ⟨a, ha, hfind⟩
  exact List.mem_of_find?_eq_some hfind

theorem ValidatePurchase_belongs (s : Sale) (uc : Int) (now : Int) (items : List Item)
    (h : ValidatePurchase s uc now items = none) :
    ∀ it ∈ items, it.saleID = s.id := by
  intro it hit
  unfold ValidatePurchase at h
  split_ifs at h with h1 h2 h3 h4 h5
  rw [Bool.not_eq_true, List.any_eq_false] at h5
  have := h5 it hit
  simpa using this

theorem getSaleByID_id (db : DB) (sid : String) (s : Sale)
    (h : getSaleByID db sid = some s) : s.id = sid := by
  have := List.find?_some h
  simpa using this

theorem items_id_inj (items : List Item) (hpk : (items.map (fun x => x.id)).Nodup)
    (a b : Item) (ha : a ∈ items) (hb : b ∈ items) (hid : a.id = b.id) : a = b :=
  List.inj_on_of_nodup_map hpk ha hb hid

theorem purchaseStep_map_id (u : String) (acc : LoopState) (it : Item) :
    (purchaseStep u acc it).items.map (fun x => x.id) = acc.items.map fun x => x.id := by
  unfold purchaseStep
  dsimp only
  split
  · rfl
  · split <;> (dsimp only; exact mark_map_id acc.items it.id u)

theorem purchaseStep_map_pair (u : String) (acc : LoopState) (it : Item) :
    (purchaseStep u acc it).items.map (fun x => (x.id, x.saleID)) =
      acc.items.map fun x => (x.id, x.saleID) := by
  unfold purchaseStep
  dsimp only
  split
  · rfl
  · split <;> (dsimp only; exact mark_map_pair acc.items it.id u)

theorem purchaseStep_count_le (u : String) (acc : LoopState) (it : Item) (S U : String)
    (hpk : (acc.items.map (fun x => x.id)).Nodup) :
    soldCountTo (purchaseStep u acc it).items S U + acc.successes.length ≤
      soldCountTo acc.items S U + (purchaseStep u acc it).successes.length := by
  unfold purchaseStep
  dsimp only
  split
  · omega
  · split
    · dsimp only
      have hb := soldCountTo_mark_le acc.items it.id u S U hpk
      simp only [List.length_append, List.length_cons, List.length_nil]
      omega
    · rename_i hr
      dsimp only
      rw [mark_fail acc.items it.id u (by simpa using hr)]

theorem purchaseStep_count_congr (u : String) (acc : LoopState) (it : Item) (S U : String)
    (hrow : ∀ r ∈ acc.items, r.id = it.id → r.sold = false → ¬(r.saleID = S ∧ u = U)) :
    soldCountTo (purchaseStep u acc it).items S U = soldCountTo acc.items S U := by
  unfold purchaseStep
  dsimp only
  split
  · rfl
  · split <;> (dsimp only; exact soldCountTo_mark_congr acc.items it.id u S U hrow)

theorem processItems_count_le_aux (u S U : String) (l : List Item) :
    ∀ acc : LoopState, (acc.items.map (fun x => x.id)).Nodup →
    soldCountTo (l.foldl (purchaseStep u) acc).items S U + acc.successes.length ≤
      soldCountTo acc.items S U + (l.foldl (purchaseStep u) acc).successes.length := by
  induction l with
  | nil => intro acc _; exact le_rfl
  | cons hd tl ih =>
    intro acc hacc
    rw [List.foldl_cons]
    have hstep := purchaseStep_count_le u acc hd S U hacc
    have hpk2 : ((purchaseStep u acc hd).items.map (fun x => x.id)).Nodup := by
      rw [purchaseStep_map_id]; exact hacc
    have htail := ih (purchaseStep u acc hd) hpk2
    omega

theorem processItems_count_le (bloom : List (String × Unit)) (items0 : List Item)
    (u S U : String) (l : List Item)
    (hpk : (items0.map (fun x => x.id)).Nodup) :
    soldCountTo (processItems bloom items0 u l).items S U ≤
      soldCountTo items0 S U + (processItems bloom items0 u l).successes.length := by
  have h := processItems_count_le_aux u S U l ⟨bloom, items0, []⟩ hpk
  simpa [processItems] using h

theorem processItems_count_congr_aux (u S U : String) (l : List Item) :
    ∀ acc : LoopState,
    (∀ it2 ∈ l, ∀ r ∈ acc.items, r.id = it2.id → ¬(r.saleID = S ∧ u = U)) →
    soldCountTo (l.foldl (purchaseStep u) acc).items S U = soldCountTo acc.items S U := by
  induction l with
  | nil => intro acc _; rfl
  | cons hd tl ih =>
    intro acc H
    rw [List.foldl_cons]
    have hstep : soldCountTo (purchaseStep u acc hd).items S U =
        soldCountTo acc.items S U :=
      purchaseStep_count_congr u acc hd S U
        (fun r hr hid _ => H hd (List.mem_cons_self hd tl) r hr hid)
    rw [← hstep]
    apply ih
    intro it2 h2 r hr hid
    have hmem : (r.id, r.saleID) ∈
        (purchaseStep u acc hd).items.map fun x => (x.id, x.saleID) :=
      List.mem_map_of_mem _ hr
    rw [purchaseStep_map_pair] at hmem
    rcases List.mem_map.mp hmem with ⟨r2, hr2, hpair⟩
    have hfst := congrArg Prod.fst hpair
    have hsnd := congrArg Prod.snd hpair
    dsimp only at hfst hsnd
    intro hcon
    exact H it2 (List.mem_cons_of_mem hd h2) r2 hr2 (by rw [hfst]; exact hid)
      ⟨by rw [hsnd]; exact hcon.1, hcon.2⟩

theorem processItems_count_congr (bloom : List (String × Unit)) (items0 : List Item)
    (u S U : String) (l : List Item)
    (H : ∀ it2 ∈ l, ∀ r ∈ items0, r.id = it2.id → ¬(r.saleID = S ∧ u = U)) :
    soldCountTo (processItems bloom items0 u l).items S U = soldCountTo items0 S U :=
  processItems_count_congr_aux u S U l ⟨bloom, items0, []⟩ H

theorem kget_kdel_ne {κ α : Type} [DecidableEq κ] (m : List (κ × α)) (p r : κ)
    (h : p ≠ r) : kget (kdel m p) r = kget m r := by
  induction m with
  | nil => rfl
  | cons hd tl ih =>
    obtain ⟨q, w⟩ := hd
    by_cases hq : q = p
    · subst hq
      simp [kdel, kget, h, ih]
    · simp [kdel, hq, kget, ih]

theorem getUserItemCount_increment_self (c : Cache) (sid uid : String) (n : Int) :
    (c.incrementCounters sid uid n).getUserItemCount sid uid =
      c.getUserItemCount sid uid + n := by
  unfold Cache.incrementCounters Cache.getUserItemCount
  dsimp only
  rw [kget_kset_self]
  rfl

theorem getUserItemCount_increment_ne (c : Cache) (sid uid S U : String) (n : Int)
    (h : (sid, uid) ≠ (S, U)) :
    (c.incrementCounters sid uid n).getUserItemCount S U = c.getUserItemCount S U := by
  unfold Cache.incrementCounters Cache.getUserItemCount
  dsimp only
  rw [kget_kset_ne _ _ _ _ h]

/-- One attempt preserves the cap invariant: the authoritative per-(sale, user) sold
count stays at or below 10 and stays dominated by the advisory user counter, provided
item ids are primary-keyed.  The pre-check `userCount + |itemIDs| ≤ 10` together with
counter domination bounds the marks of a matching attempt; a mismatching attempt
cannot touch rows of `(S, U)` at all. -/
theorem attemptPurchase_capInv (st : SysState) (ck : Checkout) (now : Int) (f : Bool)
    (S U : String)
    (hpk : (st.db.items.map (fun x => x.id)).Nodup)
    (hcap : soldCountTo st.db.items S U ≤ 10)
    (hdom : (soldCountTo st.db.items S U : Int) ≤ st.cache.getUserItemCount S U) :
    soldCountTo (attemptPurchase st ck now f).1.db.items S U ≤ 10 ∧
      (soldCountTo (attemptPurchase st ck now f).1.db.items S U : Int) ≤
        (attemptPurchase st ck now f).1.cache.getUserItemCount S U := by
  unfold attemptPurchase
  dsimp only
  split
  · exact ⟨hcap, hdom⟩
  · split
    · exact ⟨hcap, hdom⟩
    · rename_i hSalePre hUserPre
      split
      · exact ⟨hcap, hdom⟩
      · split
        · exact ⟨hcap, hdom⟩
        · rename_i hres saleEntity hsale
          split
          · exact ⟨hcap, hdom⟩
          · split
            · exact ⟨hcap, hdom⟩
            · rename_i hne hval
              set items := ck.itemIDs.filterMap (getItemByID st.db.items) with hitems
              set ls := processItems st.cache.bloom st.db.items ck.userID items with hls
              simp only [maxItemsPerUser] at hUserPre
              have hsucc_items : ls.successes.length ≤ items.length := by
                rw [hls]; exact processItems_successes_le _ _ _ _
              have hlen : items.length ≤ ck.itemIDs.length := by
                rw [hitems]; exact List.length_filterMap_le _ _
              have hcount_le : soldCountTo ls.items S U ≤
                  soldCountTo st.db.items S U + ls.successes.length := by
                rw [hls]; exact processItems_count_le _ _ _ _ _ _ hpk
              by_cases hmatch : ck.saleID = S ∧ ck.userID = U
              · obtain ⟨hS, hU⟩ := hmatch
                subst hS
                subst hU
                have hbloom : ({st.cache with bloom := ls.bloom} : Cache).getUserItemCount
                    ck.saleID ck.userID = st.cache.getUserItemCount ck.saleID ck.userID := rfl
                split
                · refine ⟨hcap, ?_⟩
                  dsimp only
                  by_cases hpos : 0 < ls.successes.length
                  · rw [if_pos hpos, getUserItemCount_increment_self, hbloom]
                    omega
                  · rw [if_neg hpos, hbloom]
                    exact hdom
                · split <;>
                  · dsimp only
                    constructor
                    · omega
                    · by_cases hpos : 0 < ls.successes.length
                      · rw [if_pos hpos, getUserItemCount_increment_self, hbloom]
                        omega
                      · rw [if_neg hpos, hbloom]
                        omega
              · have hpair : (ck.saleID, ck.userID) ≠ (S, U) := by
                  intro hp
                  exact hmatch ⟨congrArg Prod.fst hp, congrArg Prod.snd hp⟩
                have hbelongs : ∀ it2 ∈ items, it2.saleID = ck.saleID := by
                  intro it2 h2
                  have hb := ValidatePurchase_belongs saleEntity 0 now items hval it2 h2
                  rw [hb]
                  exact getSaleByID_id st.db ck.saleID saleEntity hsale
                have H : ∀ it2 ∈ items, ∀ r ∈ st.db.items, r.id = it2.id →
                    ¬(r.saleID = S ∧ ck.userID = U) := by
                  intro it2 h2 r hr hid hcon
                  have hit2mem : it2 ∈ st.db.items := by
                    rw [hitems] at h2
                    exact filterMap_getItemByID_mem st.db.items ck.itemIDs it2 h2
                  have hreq : r = it2 := items_id_inj st.db.items hpk r it2 hr hit2mem hid
                  apply hmatch
                  refine ⟨?_, hcon.2⟩
                  rw [← hbelongs it2 h2, ← hreq]
                  exact hcon.1
                have hcount_eq : soldCountTo ls.items S U = soldCountTo st.db.items S U := by
                  rw [hls]
                  exact processItems_count_congr _ _ _ _ _ _ H
                have hbloom2 : ({st.cache with bloom := ls.bloom} : Cache).getUserItemCount
                    S U = st.cache.getUserItemCount S U := rfl
                split
                · refine ⟨hcap, ?_⟩
                  dsimp only
                  by_cases hpos : 0 < ls.successes.length
                  · rw [if_pos hpos, getUserItemCount_increment_ne _ _ _ _ _ _ hpair,
                      hbloom2]
                    exact hdom
                  · rw [if_neg hpos, hbloom2]
                    exact hdom
                · split <;>
                  · dsimp only
                    rw [hcount_eq]
                    refine ⟨hcap, ?_⟩
                    by_cases hpos : 0 < ls.successes.length
                    · rw [if_pos hpos, getUserItemCount_increment_ne _ _ _ _ _ _ hpair,
                        hbloom2]
                      exact hdom
                    · rw [if_neg hpos, hbloom2]
                      exact hdom

theorem attemptPurchase_map_id (st : SysState) (ck : Checkout) (now : Int) (f : Bool) :
    (attemptPurchase st ck now f).1.db.items.map (fun x => x.id) =
      st.db.items.map fun x => x.id :=
  reach_map_id _ _ (attemptPurchase_reach st ck now f)

theorem purchaseLoop_capInv (ck : Checkout) (now : Int) (S U : String) :
    ∀ (fl : List Bool) (st : SysState),
      (st.db.items.map (fun x => x.id)).Nodup →
      soldCountTo st.db.items S U ≤ 10 →
      (soldCountTo st.db.items S U : Int) ≤ st.cache.getUserItemCount S U →
      soldCountTo (purchaseLoop st ck now fl).1.db.items S U ≤ 10 ∧
        (soldCountTo (purchaseLoop st ck now fl).1.db.items S U : Int) ≤
          (purchaseLoop st ck now fl).1.cache.getUserItemCount S U := by
  intro fl
  induction fl with
  | nil => intro st _ hcap hdom; exact ⟨hcap, hdom⟩
  | cons f rest ih =>
    intro st hpk hcap hdom
    have hatt := attemptPurchase_capInv st ck now f S U hpk hcap hdom
    have hpk2 : ((attemptPurchase st ck now f).1.db.items.map (fun x => x.id)).Nodup := by
      rw [attemptPurchase_map_id]; exact hpk
    rw [purchaseLoop]
    cases hA : attemptPurchase st ck now f with
    | mk st2 res =>
      rw [hA] at hatt hpk2
      cases res with
      | ok r => exact hatt
      | error e =>
        by_cases hbr : (isBusinessLogicError e || rest.isEmpty) = true
        · simp only [hbr, if_true]
          exact hatt
        · simp only [hbr, Bool.false_eq_true, if_false]
          exact ih st2 hpk2 hatt.1 hatt.2

theorem ExecutePurchase_capInv (st : SysState) (code : String) (now : Int)
    (fl : List Bool) (S U : String)
    (hpk : (st.db.items.map (fun x => x.id)).Nodup)
    (hcap : soldCountTo st.db.items S U ≤ 10)
    (hdom : (soldCountTo st.db.items S U : Int) ≤ st.cache.getUserItemCount S U) :
    soldCountTo (ExecutePurchase st code now fl).1.db.items S U ≤ 10 ∧
      (soldCountTo (ExecutePurchase st code now fl).1.db.items S U : Int) ≤
        (ExecutePurchase st code now fl).1.cache.getUserItemCount S U := by
  unfold ExecutePurchase
  dsimp only
  split
  · exact ⟨hcap, hdom⟩
  · rename_i ck hck
    set st1 := if (kget st.cache.checkoutCodes code).isSome = true then st
      else { st with cache :=
        { st.cache with checkoutCodes := kset st.cache.checkoutCodes code () } } with hst1
    have h1 : st1.db.items = st.db.items := by rw [hst1]; split <;> rfl
    have h2 : st1.cache.getUserItemCount S U = st.cache.getUserItemCount S U := by
      rw [hst1]; split <;> rfl
    split
    · refine ⟨?_, ?_⟩
      · rw [h1]; exact hcap
      · rw [h1, h2]; exact hdom
    · have hloop := purchaseLoop_capInv ck now S U fl
        ⟨st1.db, { st1.cache with locks := kset st1.cache.locks code () }⟩
        (by show (st1.db.items.map (fun x => x.id)).Nodup; rw [h1]; exact hpk)
        (by show soldCountTo st1.db.items S U ≤ 10; rw [h1]; exact hcap)
        (by show (soldCountTo st1.db.items S U : Int) ≤ st1.cache.getUserItemCount S U
            rw [h1, h2]; exact hdom)
      split
      · exact hloop
      · exact hloop

theorem stepOp_capInv (st : SysState) (op : Op) (S U : String)
    (hpk : (st.db.items.map (fun x => x.id)).Nodup)
    (hcap : soldCountTo st.db.items S U ≤ 10)
    (hdom : (soldCountTo st.db.items S U : Int) ≤ st.cache.getUserItemCount S U)
    (hexp : op ≠ Op.expireUserCount S U) :
    soldCountTo (stepOp st op).db.items S U ≤ 10 ∧
      (soldCountTo (stepOp st op).db.items S U : Int) ≤
        (stepOp st op).cache.getUserItemCount S U := by
  cases op with
  | checkout u i now nonce f =>
    have h := Handle_preserves st u i now nonce f
    unfold stepOp
    refine ⟨?_, ?_⟩
    · rw [h.1]; exact hcap
    · have hc : ((Handle st u i now nonce f).1).cache.getUserItemCount S U =
          st.cache.getUserItemCount S U := by
        unfold Cache.getUserItemCount
        rw [h.2.1]
      rw [h.1, hc]
      exact hdom
  | purchase code now f1 f2 =>
    exact ExecutePurchase_capInv st code now [f1, f2] S U hpk hcap hdom
  | expireUserCount s u =>
    have hne : (s, u) ≠ (S, U) := by
      intro hp
      have hs := congrArg Prod.fst hp
      have hu := congrArg Prod.snd hp
      dsimp only at hs hu
      exact hexp (by rw [hs, hu])
    unfold stepOp
    refine ⟨hcap, ?_⟩
    dsimp only
    unfold Cache.getUserItemCount
    dsimp only
    rw [kget_kdel_ne _ _ _ hne]
    exact hdom

theorem runOps_capInv (S U : String) : ∀ (ops : List Op) (st : SysState),
    (st.db.items.map (fun x => x.id)).Nodup →
    soldCountTo st.db.items S U ≤ 10 →
    (soldCountTo st.db.items S U : Int) ≤ st.cache.getUserItemCount S U →
    Op.expireUserCount S U ∉ ops →
    soldCountTo (runOps st ops).db.items S U ≤ 10 ∧
      (soldCountTo (runOps st ops).db.items S U : Int) ≤
        (runOps st ops).cache.getUserItemCount S U := by
  intro ops
  induction ops with
  | nil => intro st _ hcap hdom _; exact ⟨hcap, hdom⟩
  | cons op rest ih =>
    intro st hpk hcap hdom hexp
    have hop : op ≠ Op.expireUserCount S U := by
      intro h
      exact hexp (h ▸ List.mem_cons_self op rest)
    have hstep := stepOp_capInv st op S U hpk hcap hdom hop
    have hpk2 : ((stepOp st op).db.items.map (fun x => x.id)).Nodup := by
      rw [reach_map_id _ _ (stepOp_reach st op)]; exact hpk
    exact ih (stepOp st op) hpk2 hstep.1 hstep.2 fun h => hexp (List.mem_cons_of_mem op h)

/-- C3 counterexample: the claim asserts the 10-item user cap across **every**
sequence of checkout and purchase operations, including stale or absent
coordination-store counters.  The cap is enforced solely against the advisory
Redis counter `user:{U}:sale:{S}:count` (the use case passes
`CurrentItemCount = 0` to `ValidatePurchase`, so the authoritative durable count
is never consulted), and that counter carries a 24-hour TTL.  In this concrete
run, user `U1` checks out and purchases 10 items of sale `S1`, the user counter
then expires, and a second checkout/purchase round buys an 11th item: the
authoritative sold count reaches 11 > 10. -/
theorem userCap_counterexample :
    (let mkIt : String → Item := fun i => ⟨i, "S1", "item", false, none⟩
     let st0 : SysState :=
       ⟨⟨[⟨"S1", 0, 100, 11, 0⟩],
         (["I1", "I2", "I3", "I4", "I5", "I6", "I7", "I8", "I9", "IA", "IB"].map mkIt),
         [], []⟩, emptyCache⟩
     let ops : List Op :=
       [Op.checkout "U1" "I1" 50 "n1" noFaults,
        Op.checkout "U1" "I2" 50 "n1" noFaults,
        Op.checkout "U1" "I3" 50 "n1" noFaults,
        Op.checkout "U1" "I4" 50 "n1" noFaults,
        Op.checkout "U1" "I5" 50 "n1" noFaults,
        Op.checkout "U1" "I6" 50 "n1" noFaults,
        Op.checkout "U1" "I7" 50 "n1" noFaults,
        Op.checkout "U1" "I8" 50 "n1" noFaults,
        Op.checkout "U1" "I9" 50 "n1" noFaults,
        Op.checkout "U1" "IA" 50 "n1" noFaults,
        Op.purchase "CHK-S1-n1" 50 false false,
        Op.expireUserCount "S1" "U1",
        Op.checkout "U1" "IB" 50 "n2" noFaults,
        Op.purchase "CHK-S1-n2" 50 false false]
     soldCountTo st0.db.items "S1" "U1" = 0 ∧
       soldCountTo (runOps st0 ops).db.items "S1" "U1" = 11 ∧
       maxItemsPerUser < 11) :=
  ⟨rfl, by decide, by decide⟩

/-- C3 (amended): the per-(sale, user) cap of 10 does hold across every sequence of
checkout, purchase and (other-key) counter-expiry operations **provided** the
advisory counter `user:{U}:sale:{S}:count` is never expired for that pair during the
run, item ids are primary-keyed, and initially the durable sold count is at most 10
and dominated by the advisory counter (both are 0 on a fresh deployment).  Under
these hypotheses every purchase pre-check `userCount + |itemIDs| ≤ 10` soundly
bounds the marks, and the sold count of sale `S` to user `U` never exceeds 10. -/
theorem userCap_amended (st : SysState) (ops : List Op) (S U : String)
    (hpk : (st.db.items.map (fun x => x.id)).Nodup)
    (hcap : soldCountTo st.db.items S U ≤ 10)
    (hdom : (soldCountTo st.db.items S U : Int) ≤ st.cache.getUserItemCount S U)
    (hexp : Op.expireUserCount S U ∉ ops) :
    soldCountTo (runOps st ops).db.items S U ≤ 10 :=
  (runOps_capInv S U ops st hpk hcap hdom hexp).1

theorem userCap_witness :
    (let st0 : SysState :=
       ⟨⟨[⟨"S1", 0, 100, 1, 0⟩], [⟨"I1", "S1", "item", false, none⟩], [], []⟩, emptyCache⟩
     let ops : List Op := [Op.checkout "U1" "I1" 50 "n1" noFaults,
       Op.purchase "CHK-S1-n1" 50 false false]
     ((st0.db.items.map (fun x => x.id)).Nodup ∧
        soldCountTo st0.db.items "S1" "U1" ≤ 10 ∧
        (soldCountTo st0.db.items "S1" "U1" : Int) ≤
          st0.cache.getUserItemCount "S1" "U1" ∧
        Op.expireUserCount "S1" "U1" ∉ ops) ∧
      soldCountTo (runOps st0 ops).db.items "S1" "U1" ≤ 10) :=
  ⟨⟨by decide, by decide, by decide, by decide⟩,
   userCap_amended _ _ "S1" "U1" (by decide) (by decide) (by decide) (by decide)⟩

end FlashSale
